import Mathlib

/-
Verification of the model-architecture core of the Improved-RUL-Prediction
repository (src/model.py) against its natural-language specification.

The PyTorch code is shallowly embedded: tensors become shape-carrying
structures whose entries live in the real numbers, modules become parameter
records, and fallible tensor operations (shape checks PyTorch enforces at
run time) return Option.  Dropout probabilities are rational so that the
branch (training and p nonzero) stays decidable; a dropout application is
parameterized by an explicit keep-mask standing for the Bernoulli draw.
-/

noncomputable section

/-- A 2-D tensor: shape fields plus a total entry function (entries outside
the shape are irrelevant junk, as in a flat backing store). -/
structure Tensor2 where
  n0 : ℕ
  n1 : ℕ
  data : ℕ → ℕ → ℝ

/-- A 3-D tensor, indexed batch, time, feature in model-facing layouts. -/
structure Tensor3 where
  n0 : ℕ
  n1 : ℕ
  n2 : ℕ
  data : ℕ → ℕ → ℕ → ℝ

/-- A 4-D tensor, used for the per-head attention computation. -/
structure Tensor4 where
  n0 : ℕ
  n1 : ℕ
  n2 : ℕ
  n3 : ℕ
  data : ℕ → ℕ → ℕ → ℕ → ℝ

/-- Devices are opaque identifiers; Tensor.to(device) does not change values. -/
abbrev Device : Type := ℕ

/-- Model of tensor.to(device) for 4-D tensors: value-preserving placement. -/
def toDevice4 (x : Tensor4) (_d : Device) : Tensor4 := x

/-- Keep-masks standing for the Bernoulli draws of one 4-D dropout call. -/
abbrev Keep4 : Type := ℕ → ℕ → ℕ → ℕ → Bool

/-- Keep-masks for a 3-D dropout call. -/
abbrev Keep3 : Type := ℕ → ℕ → ℕ → Bool

/-- Keep-masks for a 2-D dropout call. -/
abbrev Keep2 : Type := ℕ → ℕ → Bool

/-- Model of torch.nn.functional.dropout on a 4-D tensor: when training
with nonzero probability, dropped entries become 0 and kept entries are
scaled by 1/(1-p); otherwise the input is returned unchanged. -/
def fdropout4 (p : ℚ) (training : Bool) (keep : Keep4) (x : Tensor4) : Tensor4 :=
  if training = true ∧ p ≠ 0 then
    { x with data := fun a b c d =>
        if keep a b c d then x.data a b c d / (1 - (p : ℝ)) else 0 }
  else x

/-- Model of dropout on a 3-D tensor (used by the nn.Dropout modules). -/
def fdropout3 (p : ℚ) (training : Bool) (keep : Keep3) (x : Tensor3) : Tensor3 :=
  if training = true ∧ p ≠ 0 then
    { x with data := fun a b c =>
        if keep a b c then x.data a b c / (1 - (p : ℝ)) else 0 }
  else x

/-- Model of dropout on a 2-D tensor (the output-head nn.Dropout). -/
def fdropout2 (p : ℚ) (training : Bool) (keep : Keep2) (x : Tensor2) : Tensor2 :=
  if training = true ∧ p ≠ 0 then
    { x with data := fun a b =>
        if keep a b then x.data a b / (1 - (p : ℝ)) else 0 }
  else x

/-- Batched matrix product of two 4-D tensors over their last two axes,
failing (as torch.matmul does) when the inner dimensions disagree or the
batch dimensions disagree. -/
def matmul4 (x y : Tensor4) : Option Tensor4 :=
  if x.n0 = y.n0 ∧ x.n1 = y.n1 ∧ x.n3 = y.n2 then
    some { n0 := x.n0, n1 := x.n1, n2 := x.n2, n3 := y.n3,
           data := fun a b i j =>
             Finset.sum (Finset.range x.n3) (fun k => x.data a b i k * y.data a b k j) }
  else none

/-- Model of tensor.transpose(-2, -1) on a 4-D tensor. -/
def transposeLast2 (x : Tensor4) : Tensor4 :=
  { n0 := x.n0, n1 := x.n1, n2 := x.n3, n3 := x.n2,
    data := fun a b i j => x.data a b j i }

/-- Model of tensor.transpose(1, 2) on a 4-D tensor. -/
def transpose12 (x : Tensor4) : Tensor4 :=
  { n0 := x.n0, n1 := x.n2, n2 := x.n1, n3 := x.n3,
    data := fun a b i j => x.data a i b j }

/-- Scalar division of every entry of a 4-D tensor. -/
def divScalar4 (x : Tensor4) (c : ℝ) : Tensor4 :=
  { x with data := fun a b i j => x.data a b i j / c }

/-- The large negative constant -1e9 used by masked_fill before softmax. -/
def negBig : ℝ := -(1000000000 : ℝ)

/-- Model of scores.masked_fill(mask == 0, -1e9): where the mask is zero the
score is replaced; the mask must be broadcastable to the scores (every mask
dimension equals 1 or the corresponding scores dimension). -/
def maskedFill4 (x m : Tensor4) : Option Tensor4 :=
  if (m.n0 = 1 ∨ m.n0 = x.n0) ∧ (m.n1 = 1 ∨ m.n1 = x.n1) ∧
     (m.n2 = 1 ∨ m.n2 = x.n2) ∧ (m.n3 = 1 ∨ m.n3 = x.n3) then
    some { x with data := fun a b i j =>
      let a0 := if m.n0 = 1 then 0 else a
      let b0 := if m.n1 = 1 then 0 else b
      let i0 := if m.n2 = 1 then 0 else i
      let j0 := if m.n3 = 1 then 0 else j
      if (m.data a0 b0 i0 j0 = 0) then negBig else x.data a b i j }
  else none

/-- Softmax along the last axis of a 4-D tensor. -/
def softmax4 (x : Tensor4) : Tensor4 :=
  { x with data := fun a b i j =>
      Real.exp (x.data a b i j) /
        Finset.sum (Finset.range x.n3) (fun k => Real.exp (x.data a b i k)) }

/-- Shallow embedding of the attention function of src/model.py (lines
103-115).  Lines 105-107 of the source are reproduced verbatim: after
placing query on the device, BOTH key and value are rebound to
query.to(device), so the remaining computation never reads the key and
value arguments.  The functional dropout on the weights is applied with
training := true, the PyTorch default, since the source passes no training
flag.  Returns (weighted values, attention weights). -/
def attention (query key value : Tensor4) (device : Device)
    (mask : Option Tensor4) (dropout : ℚ) (keep : Keep4) :
    Option (Tensor4 × Tensor4) :=
  let query2 := toDevice4 query device
  let key2 := toDevice4 query2 device
  let value2 := toDevice4 query2 device
  let _unused := (key, value)
  let d_k := query2.n3
  match matmul4 query2 (transposeLast2 key2) with
  | none => none
  | some s0 =>
    let scores := divScalar4 s0 (Real.sqrt (d_k : ℝ))
    let masked : Option Tensor4 :=
      match mask with
      | none => some scores
      | some m => maskedFill4 scores m
    match masked with
    | none => none
    | some sc =>
      let p_attn := softmax4 sc
      let p_attn2 := fdropout4 dropout true keep p_attn
      match matmul4 p_attn2 value2 with
      | none => none
      | some out => some (out, p_attn2)

/-- C1: in the scaled dot-product attention primitive the key and value
operands are overwritten with the query operand during the device-placement
step, so for every query, key, value, device, mask, dropout probability and
dropout draw, the result (output and attention weights) equals that of the
same call with the query passed in all three operand positions. -/
theorem attention_ignores_key_value
    (q k v : Tensor4) (device : Device) (mask : Option Tensor4)
    (dropout : ℚ) (keep : Keep4) :
    attention q k v device mask dropout keep =
      attention q q q device mask dropout keep := rfl

/-- A 1-by-1-by-1-by-1 projected-query tensor holding the value 1. -/
def qOne : Tensor4 := { n0 := 1, n1 := 1, n2 := 1, n3 := 1, data := fun _ _ _ _ => 1 }

/-- The dropout draw that keeps every entry. -/
def keepAll4 : Keep4 := fun _ _ _ _ => true

/-- The dropout draw that drops every entry. -/
def dropAll4 : Keep4 := fun _ _ _ _ => false

/-- C8: the dropout modules are identities when training is off, but the
attention primitive calls the functional dropout with the PyTorch default
training := true, so the attention-weight dropout stays active in
evaluation mode: with probability 1/10 on a unit 1-by-1 query, the keep-all
draw yields output entry 10/9 and the drop-all draw yields 0, two different
values, so evaluation-mode forward is not a deterministic function of
(parameters, window, mask). -/
theorem attention_dropout_active_in_eval :
    (∀ (p : ℚ) (keep : Keep4) (x : Tensor4), fdropout4 p false keep x = x) ∧
    Option.map (fun r : Tensor4 × Tensor4 => r.1.data 0 0 0 0)
      (attention qOne qOne qOne 0 none (1/10) keepAll4) = some (10/9 : ℝ) ∧
    Option.map (fun r : Tensor4 × Tensor4 => r.1.data 0 0 0 0)
      (attention qOne qOne qOne 0 none (1/10) dropAll4) = some (0 : ℝ) ∧
    (10/9 : ℝ) ≠ (0 : ℝ) := by
  refine ⟨?_, ?_, ?_, by norm_num⟩
  · intro p keep x
    simp [fdropout4]
  · simp [attention, qOne, keepAll4, matmul4, transposeLast2, divScalar4,
      softmax4, fdropout4, toDevice4, Finset.sum_range_one]
    norm_num
  · simp [attention, qOne, dropAll4, matmul4, transposeLast2, divScalar4,
      softmax4, fdropout4, toDevice4, Finset.sum_range_one]

/-- Length of torch.arange(0, d_model, 2): the number of sine columns and
of primary divisor-term entries. -/
def peDivTermLen (d : ℕ) : ℕ := (d + 1) / 2

/-- Number of columns of the slice pe[:, 1::2] (the cosine columns). -/
def peCosCols (d : ℕ) : ℕ := d / 2

/-- The primary divisor term of PositionalEncoding (src/model.py lines
171-172): exp(2 i * (-log 10000 / d_model)). -/
def peDivTerm (d i : ℕ) : ℝ :=
  Real.exp ((2 * i : ℕ) * (-(Real.log 10000) / (d : ℝ)))

/-- Length of torch.arange(0, d_model - 1, 2), the divisor term rebuilt in
the except branch (lines 178-179). -/
def peDivTermAltLen (d : ℕ) : ℕ := d / 2

/-- The except-branch divisor term (lines 178-179): only the arange end
changes to d_model - 1; the exponent still divides by d_model, so each
entry has the same value exp(2 i * (-log 10000 / d_model)) as the primary
term. -/
def peDivTermAlt (d i : ℕ) : ℝ :=
  Real.exp ((2 * i : ℕ) * (-(Real.log 10000) / (d : ℝ)))

/-- The slice assignment pe[:, 1::2] = cos(position * div_term) succeeds
exactly when the cosine block is broadcastable onto the slice: the column
counts agree, or the source has a single column. -/
def peTrySucceeds (d : ℕ) : Prop :=
  peDivTermLen d = peCosCols d ∨ peDivTermLen d = 1

instance (d : ℕ) : Decidable (peTrySucceeds d) := by
  unfold peTrySucceeds; infer_instance

/-- The construction took the except branch (the alternate divisor term). -/
def peUsedAltBranch (d : ℕ) : Prop := ¬ peTrySucceeds d

instance (d : ℕ) : Decidable (peUsedAltBranch d) := by
  unfold peUsedAltBranch; infer_instance

/-- Entry (pos, j) of the positional-encoding table of width d: sine of
pos times the divisor term on even columns; on odd columns, cosine via the
primary term when the try assignment fits (broadcasting a single source
column if needed), and via the except-branch term otherwise. -/
def peEntry (d pos j : ℕ) : ℝ :=
  if (j % 2 = 0) then Real.sin ((pos : ℝ) * peDivTerm d (j / 2))
  else if (peDivTermLen d = peCosCols d) then Real.cos ((pos : ℝ) * peDivTerm d (j / 2))
  else if (peDivTermLen d = 1) then Real.cos ((pos : ℝ) * peDivTerm d 0)
  else Real.cos ((pos : ℝ) * peDivTermAlt d (j / 2))

/-- Parameters of a PositionalEncoding module: feature width, the max_len
the table was built with, and the dropout probability. -/
structure PEParams where
  d_model : ℕ
  maxLen : ℕ
  p : ℚ

/-- Broadcast of one dimension pair, as torch does it. -/
def bDim (a b : ℕ) : Option ℕ :=
  if a = b then some a else if a = 1 then some b else if b = 1 then some a else none

/-- Broadcasting addition of two 3-D tensors, failing when a dimension
pair is incompatible. -/
def addB3 (x y : Tensor3) : Option Tensor3 :=
  match bDim x.n0 y.n0, bDim x.n1 y.n1, bDim x.n2 y.n2 with
  | some a, some b, some c =>
    some { n0 := a, n1 := b, n2 := c,
           data := fun i j k =>
             x.data (if x.n0 = 1 then 0 else i) (if x.n1 = 1 then 0 else j)
               (if x.n2 = 1 then 0 else k) +
             y.data (if y.n0 = 1 then 0 else i) (if y.n1 = 1 then 0 else j)
               (if y.n2 = 1 then 0 else k) }
  | _, _, _ => none

/-- The positional table sliced to r rows, with the unsqueezed leading
dimension of 1 (pe[:, :r, :]). -/
def peSliceT (pp : PEParams) (r : ℕ) : Tensor3 :=
  { n0 := 1, n1 := r, n2 := pp.d_model,
    data := fun _ pos j => peEntry pp.d_model pos j }

/-- PositionalEncoding.forward: add the table sliced to the input length
(pe[:, :x.size(1), :], an extra leading unsqueezed dimension of 1), then
apply the module dropout. -/
def peForward (pp : PEParams) (training : Bool) (keep : Keep3) (x : Tensor3) :
    Option Tensor3 :=
  Option.map (fdropout3 pp.p training keep) (addB3 x (peSliceT pp (min x.n1 pp.maxLen)))

/-- C5 (amended): for every odd d_model the positional-encoding table holds
exactly the even-formula values: cosine columns pe[pos, 2i+1] equal
cos(pos / 10000^(2i/d_model)) for all i below (d_model-1)/2 and sine
columns pe[pos, 2i] equal sin(pos / 10000^(2i/d_model)) for all
(d_model+1)/2 sine indices; the except-branch assignment always fits
(its divisor-term length equals the cosine column count), and for odd
d_model at least 3 the construction indeed goes through the alternate
cosine branch.  (For d_model = 1 the primary assignment already fits by
broadcasting its single column into the empty cosine slice.) -/
theorem positionalEncoding_odd_dmodel (d : ℕ) (hd : Odd d) :
    peDivTermAltLen d = peCosCols d ∧
    (3 ≤ d → peUsedAltBranch d) ∧
    (∀ pos i : ℕ, i < d / 2 →
      peEntry d pos (2 * i + 1) =
        Real.cos ((pos : ℝ) / (10000 : ℝ) ^ ((2 * i : ℝ) / (d : ℝ)))) ∧
    (∀ pos i : ℕ, i < (d + 1) / 2 →
      peEntry d pos (2 * i) =
        Real.sin ((pos : ℝ) / (10000 : ℝ) ^ ((2 * i : ℝ) / (d : ℝ)))) := by
  obtain ⟨m, hm⟩ := hd
  have hdt : ∀ pos i : ℕ,
      (pos : ℝ) * Real.exp ((2 * i : ℕ) * (-(Real.log 10000) / (d : ℝ))) =
        (pos : ℝ) / (10000 : ℝ) ^ ((2 * i : ℝ) / (d : ℝ)) := by
    intro pos i
    rw [Real.rpow_def_of_pos (by norm_num : (0:ℝ) < 10000)]
    rw [div_eq_mul_inv (pos : ℝ), ← Real.exp_neg]
    push_cast
    ring_nf
  refine ⟨rfl, ?_, ?_, ?_⟩
  · intro h3
    unfold peUsedAltBranch peTrySucceeds peDivTermLen peCosCols
    omega
  · intro pos i hi
    have hne : ¬ (peDivTermLen d = peCosCols d) := by
      unfold peDivTermLen peCosCols; omega
    by_cases h1 : peDivTermLen d = 1
    · exact absurd hi (by unfold peDivTermLen at h1; omega)
    · unfold peEntry
      rw [if_neg (by omega), if_neg hne, if_neg h1]
      unfold peDivTermAlt
      have h2 : (2 * i + 1) / 2 = i := by omega
      rw [h2, hdt]
  · intro pos i _
    unfold peEntry
    rw [if_pos (by omega)]
    unfold peDivTerm
    have h2 : (2 * i) / 2 = i := by omega
    rw [h2, hdt]

/-- C5 counterexample: d_model = 1 is odd, yet construction does not take
the alternate cosine branch: the primary assignment broadcasts its single
cosine source column into the empty cosine slice, so no exception is
raised. -/
theorem positionalEncoding_d1_primary_branch :
    Odd 1 ∧ ¬ peUsedAltBranch 1 := by
  constructor
  · decide
  · unfold peUsedAltBranch peTrySucceeds peDivTermLen peCosCols
    simp

/-- Witness for the amended C5 theorem at d_model = 3, pos = 1, i = 0. -/
theorem positionalEncoding_odd_dmodel_witness :
    Odd 3 ∧
    (peUsedAltBranch 3 ∧
     peEntry 3 1 1 = Real.cos ((1 : ℝ) / (10000 : ℝ) ^ ((0 : ℝ) / (3 : ℝ)))) := by
  have h := positionalEncoding_odd_dmodel 3 (by decide)
  refine ⟨by decide, h.2.1 (by norm_num), ?_⟩
  have h2 := h.2.2.1 1 0 (by norm_num)
  simpa using h2

/-- Model of tensor.permute(0, 2, 1) on a 3-D tensor. -/
def permute021 (x : Tensor3) : Tensor3 :=
  { n0 := x.n0, n1 := x.n2, n2 := x.n1,
    data := fun a b c => x.data a c b }

/-- Model of nn.ConstantPad1d(pad, 0.0): pad both ends of the last axis
with pad zeros. -/
def pad1dLast (pad : ℕ) (x : Tensor3) : Tensor3 :=
  { n0 := x.n0, n1 := x.n1, n2 := x.n2 + 2 * pad,
    data := fun a b t =>
      if (pad ≤ t ∧ t < pad + x.n2) then x.data a b (t - pad) else 0 }

/-- Elementwise ReLU on a 3-D tensor. -/
def relu3 (x : Tensor3) : Tensor3 :=
  { x with data := fun a b c => max 0 (x.data a b c) }

/-- Elementwise ReLU on a 2-D tensor. -/
def relu2 (x : Tensor2) : Tensor2 :=
  { x with data := fun a b => max 0 (x.data a b) }

/-- Model of nn.Conv1d(ch, ch, k) applied to a channels-first tensor
[batch, ch, length]: fails when the channel count disagrees or the length
is smaller than the kernel; otherwise the output length is length - k + 1
and each entry is the bias plus the windowed weighted sum. -/
def conv1d (ch k : ℕ) (w : ℕ → ℕ → ℕ → ℝ) (bias : ℕ → ℝ) (x : Tensor3) :
    Option Tensor3 :=
  if (x.n1 = ch ∧ k ≤ x.n2) then
    some { n0 := x.n0, n1 := ch, n2 := x.n2 + 1 - k,
           data := fun b o t =>
             bias o +
               Finset.sum (Finset.range ch) (fun c =>
                 Finset.sum (Finset.range k) (fun j => w o c j * x.data b c (t + j))) }
  else none

/-- Parameters of a ConvLayer: feature count, kernel size, convolution
weight [ch, ch, k] and bias [ch]. -/
structure ConvParams where
  ch : ℕ
  k : ℕ
  w : ℕ → ℕ → ℕ → ℝ
  b : ℕ → ℝ

/-- ConvLayer.forward (src/model.py lines 24-28): permute to
channels-first, pad both ends of the time axis by (k-1)/2 zeros, convolve,
ReLU, permute back. -/
def convLayerForward (cp : ConvParams) (src : Tensor3) : Option Tensor3 :=
  let s1 := permute021 src
  let s2 := pad1dLast ((cp.k - 1) / 2) s1
  match conv1d cp.ch cp.k cp.w cp.b s2 with
  | none => none
  | some s3 => some (permute021 (relu3 s3))

/-- C2: on input of shape [batch, L, d_model], with kernel size at least 1
and L at least the minimum making the convolution output non-empty, the
ConvLayer succeeds and produces shape [batch, L-prime, d_model] where
L-prime = L for odd kernel size and L-prime = L - 1 for even kernel size. -/
theorem convLayer_shape (cp : ConvParams) (x : Tensor3) (bn L d : ℕ)
    (hx0 : x.n0 = bn) (hx1 : x.n1 = L) (hx2 : x.n2 = d) (hch : cp.ch = d)
    (hk : 1 ≤ cp.k) (hL : cp.k ≤ L + 2 * ((cp.k - 1) / 2)) :
    ∃ y : Tensor3, convLayerForward cp x = some y ∧
      y.n0 = bn ∧ y.n2 = d ∧
      y.n1 = (if cp.k % 2 = 1 then L else L - 1) := by
  have hc : (pad1dLast ((cp.k - 1) / 2) (permute021 x)).n1 = cp.ch := by
    simp [pad1dLast, permute021, hx2, hch]
  have hk2 : cp.k ≤ (pad1dLast ((cp.k - 1) / 2) (permute021 x)).n2 := by
    simp only [pad1dLast, permute021, hx1]
    omega
  simp only [convLayerForward, conv1d]
  rw [if_pos ⟨hc, hk2⟩]
  refine ⟨_, rfl, ?_, ?_, ?_⟩
  · simp [permute021, relu3, pad1dLast, hx0]
  · simp [permute021, relu3, pad1dLast, hch]
  · simp only [permute021, relu3, pad1dLast, hx1]
    rcases Nat.mod_two_eq_zero_or_one cp.k with h | h
    · rw [if_neg (by omega)]
      omega
    · rw [if_pos h]
      omega

/-- Witness for C2 at an even kernel (k = 4) on a [2, 5, 3] input. -/
theorem convLayer_shape_witness :
    ∃ y : Tensor3,
      convLayerForward { ch := 3, k := 4, w := fun _ _ _ => 0, b := fun _ => 0 }
        { n0 := 2, n1 := 5, n2 := 3, data := fun _ _ _ => 0 } = some y ∧
      y.n0 = 2 ∧ y.n2 = 3 ∧ y.n1 = (if 4 % 2 = 1 then 5 else 5 - 1) := by
  exact convLayer_shape _ _ 2 5 3 rfl rfl rfl rfl (by norm_num) (by norm_num)

/-- Parameters of an nn.Linear(inF, outF): weight [outF, inF] and bias. -/
structure LinParams where
  outF : ℕ
  inF : ℕ
  w : ℕ → ℕ → ℝ
  b : ℕ → ℝ

/-- nn.Linear applied to the last axis of a 3-D tensor; fails when the
input width disagrees with the layer's in-features. -/
def linear3 (lp : LinParams) (x : Tensor3) : Option Tensor3 :=
  if (x.n2 = lp.inF) then
    some { n0 := x.n0, n1 := x.n1, n2 := lp.outF,
           data := fun a bi o =>
             Finset.sum (Finset.range lp.inF) (fun i => lp.w o i * x.data a bi i) + lp.b o }
  else none

/-- nn.Linear applied to a 2-D tensor. -/
def linear2 (lp : LinParams) (x : Tensor2) : Option Tensor2 :=
  if (x.n1 = lp.inF) then
    some { n0 := x.n0, n1 := lp.outF,
           data := fun a o =>
             Finset.sum (Finset.range lp.inF) (fun i => lp.w o i * x.data a i) + lp.b o }
  else none

/-- LayerNorm parameters over the last axis: size, elementwise affine
weight (default all ones) and bias (default all zeros). -/
structure LNParams where
  size : ℕ
  g : ℕ → ℝ
  bb : ℕ → ℝ

/-- The default-constructed LayerNorm of a given size. -/
def lnDefault (size : ℕ) : LNParams :=
  { size := size, g := fun _ => 1, bb := fun _ => 0 }

/-- torch LayerNorm epsilon, 1e-5. -/
def lnEps : ℝ := 1 / 100000

/-- nn.LayerNorm over the last axis with biased variance, as torch
computes it; fails when the last dimension disagrees with the size. -/
def layerNorm (ln : LNParams) (x : Tensor3) : Option Tensor3 :=
  if (x.n2 = ln.size) then
    some { x with data := fun a bi c =>
      let mu := (Finset.sum (Finset.range x.n2) (fun j => x.data a bi j)) / (x.n2 : ℝ)
      let v := (Finset.sum (Finset.range x.n2)
        (fun j => (x.data a bi j - mu) ^ 2)) / (x.n2 : ℝ)
      (x.data a bi c - mu) / Real.sqrt (v + lnEps) * ln.g c + ln.bb c }
  else none

/-- Parameters of PositionwiseFeedForward: the two linear layers and the
dropout probability. -/
structure FFParams where
  w_1 : LinParams
  w_2 : LinParams
  p : ℚ

/-- PositionwiseFeedForward.forward: w_2(dropout(relu(w_1 x))). -/
def ffForward (ff : FFParams) (training : Bool) (keep : Keep3) (x : Tensor3) :
    Option Tensor3 :=
  match linear3 ff.w_1 x with
  | none => none
  | some h1 => linear3 ff.w_2 (fdropout3 ff.p training keep (relu3 h1))

/-- Parameters of a SublayerConnection: its LayerNorm and dropout. -/
structure SubParams where
  norm : LNParams
  p : ℚ

/-- SublayerConnection.forward: x + dropout(sublayer(norm(x))), the norm
first (pre-norm ordering); the sublayer may also return auxiliary state. -/
def sublayerConnection {α : Type} (sp : SubParams) (training : Bool) (keepD : Keep3)
    (x : Tensor3) (f : Tensor3 → Option (Tensor3 × α)) : Option (Tensor3 × α) :=
  match layerNorm sp.norm x with
  | none => none
  | some nx =>
    match f nx with
    | none => none
    | some (y, s) =>
      match addB3 x (fdropout3 sp.p training keepD y) with
      | none => none
      | some r => some (r, s)

/-- Parameters and cached state of a MultiHeadAttention module: head count,
per-head width, dropout probability, the four linear projections, the attn
field the module stores the latest attention weights into (None at
construction), and the device threaded into the attention primitive. -/
structure MHAParams where
  h : ℕ
  d_k : ℕ
  p : ℚ
  lin0 : LinParams
  lin1 : LinParams
  lin2 : LinParams
  lin3 : LinParams
  attn : Option Tensor4
  device : Device

/-- Model of x.view(nbatches, -1, h, d_k) on a contiguous 3-D tensor:
row-major reinterpretation, failing when h*d_k is zero or does not divide
the number of per-batch elements. -/
def view3to4 (h dk : ℕ) (x : Tensor3) : Option Tensor4 :=
  if (0 < h * dk ∧ (h * dk) ∣ (x.n1 * x.n2)) then
    some { n0 := x.n0, n1 := x.n1 * x.n2 / (h * dk), n2 := h, n3 := dk,
           data := fun a b c d =>
             let fi := (b * h + c) * dk + d
             x.data a (fi / x.n2) (fi % x.n2) }
  else none

/-- Model of x.contiguous().view(nbatches, -1, h*d_k) on a [nb, L, h, dk]
tensor: merge the last two axes row-major. -/
def view4to3 (x : Tensor4) : Tensor3 :=
  { n0 := x.n0, n1 := x.n1, n2 := x.n2 * x.n3,
    data := fun a b j => x.data a b (j / x.n3) (j % x.n3) }

/-- Model of mask.unsqueeze(1). -/
def unsqueeze1 (m : Tensor3) : Tensor4 :=
  { n0 := m.n0, n1 := 1, n2 := m.n1, n3 := m.n2,
    data := fun a _ i j => m.data a i j }

/-- MultiHeadAttention.forward (src/model.py lines 132-145): unsqueeze the
mask over heads, project query/key/value, reshape to per-head form, run the
attention primitive, store the returned attention weights into the attn
field (the mutation of line 141), concatenate heads and apply the output
projection.  Returns the output together with the updated module state. -/
def multiHeadAttentionForward (mp : MHAParams) (query key value : Tensor3)
    (mask : Option Tensor3) (keepA : Keep4) : Option (Tensor3 × MHAParams) :=
  let mask4 := Option.map unsqueeze1 mask
  match linear3 mp.lin0 query, linear3 mp.lin1 key, linear3 mp.lin2 value with
  | some q3, some k3, some v3 =>
    match view3to4 mp.h mp.d_k q3, view3to4 mp.h mp.d_k k3, view3to4 mp.h mp.d_k v3 with
    | some q4a, some k4a, some v4a =>
      match attention (transpose12 q4a) (transpose12 k4a) (transpose12 v4a)
          mp.device mask4 mp.p keepA with
      | none => none
      | some (x4, p_attn) =>
        match linear3 mp.lin3 (view4to3 (transpose12 x4)) with
        | none => none
        | some out => some (out, { mp with attn := some p_attn })
    | _, _, _ => none
  | _, _, _ => none

/-- One TransformerEncoderLayer: self-attention and feed-forward, each
wrapped in its own SublayerConnection. -/
structure TransLayer where
  size : ℕ
  self_attn : MHAParams
  feed_forward : FFParams
  sub0 : SubParams
  sub1 : SubParams

/-- The dropout draws consumed by one encoder layer in one forward call. -/
structure LayerKeeps where
  attnK : Keep4
  sub0K : Keep3
  sub1K : Keep3
  ffK : Keep3

/-- TransformerEncoderLayer.forward: the attention sublayer then the
feed-forward sublayer, threading the updated attention state out. -/
def transLayerForward (tl : TransLayer) (training : Bool) (ks : LayerKeeps)
    (x : Tensor3) (mask : Option Tensor3) : Option (Tensor3 × TransLayer) :=
  match sublayerConnection tl.sub0 training ks.sub0K x
      (fun nx => multiHeadAttentionForward tl.self_attn nx nx nx mask ks.attnK) with
  | none => none
  | some (x1, mha2) =>
    match sublayerConnection tl.sub1 training ks.sub1K x1
        (fun nx => Option.map (fun y => (y, ()))
          (ffForward tl.feed_forward training ks.ffK nx)) with
    | none => none
    | some (x2, _) => some (x2, { tl with self_attn := mha2 })

/-- A TransformerEncoder: the cloned layers and the trailing norm. -/
structure EncParams where
  layers : List TransLayer
  norm : LNParams

/-- Pass the input through each encoder layer in turn, collecting the
updated layer states. -/
def encLayersForward (training : Bool) (ksF : ℕ → LayerKeeps)
    (mask : Option Tensor3) :
    List TransLayer → ℕ → Tensor3 → Option (Tensor3 × List TransLayer)
  | [], _, x => some (x, [])
  | l :: rest, i, x =>
    match transLayerForward l training (ksF i) x mask with
    | none => none
    | some (x1, l2) =>
      match encLayersForward training ksF mask rest (i + 1) x1 with
      | none => none
      | some (x2, rest2) => some (x2, l2 :: rest2)

/-- TransformerEncoder.forward: all layers in turn, then the trailing norm. -/
def transformerEncoderForward (ep : EncParams) (training : Bool)
    (ksF : ℕ → LayerKeeps) (x : Tensor3) (mask : Option Tensor3) :
    Option (Tensor3 × EncParams) :=
  match encLayersForward training ksF mask ep.layers 0 x with
  | none => none
  | some (x1, ls2) =>
    match layerNorm ep.norm x1 with
    | none => none
    | some y => some (y, { ep with layers := ls2 })

/-- A complex-valued 3-D tensor, for the Fourier layer. -/
structure Tensor3C where
  n0 : ℕ
  n1 : ℕ
  n2 : ℕ
  data : ℕ → ℕ → ℕ → ℂ

/-- Lift a real tensor to a complex one. -/
def toC (x : Tensor3) : Tensor3C :=
  { n0 := x.n0, n1 := x.n1, n2 := x.n2, data := fun a b c => (x.data a b c : ℂ) }

/-- torch.fft.fft along the last (feature) axis:
X[k] = sum over j of x[j] * exp(-2 pi i j k / n). -/
def dftDimLast (x : Tensor3C) : Tensor3C :=
  { x with data := fun a b k =>
      Finset.sum (Finset.range x.n2) (fun j =>
        x.data a b j *
          Complex.exp (-(2 * Real.pi * Complex.I * k * j) / (x.n2 : ℂ))) }

/-- torch.fft.fft along the middle (time) axis. -/
def dftDim1 (x : Tensor3C) : Tensor3C :=
  { x with data := fun a k c =>
      Finset.sum (Finset.range x.n1) (fun j =>
        x.data a j c *
          Complex.exp (-(2 * Real.pi * Complex.I * k * j) / (x.n1 : ℂ))) }

/-- torch.real of a complex tensor. -/
def realPart3 (x : Tensor3C) : Tensor3 :=
  { n0 := x.n0, n1 := x.n1, n2 := x.n2, data := fun a b c => (x.data a b c).re }

/-- A tensor argument together with its Python object identity (the
reference the interpreter passes); two separately built tensors have
distinct identities even when equal-valued. -/
structure TRef where
  rid : ℕ
  val : Tensor3

/-- FourierFFTLayer.forward (src/model.py lines 243-248): assert that
query, key, value are the same object reference, then return the real part
of an FFT along the feature axis followed by an FFT along the time axis. -/
def fourierFFTForward (query key value : TRef) : Option Tensor3 :=
  if (query.rid = key.rid ∧ key.rid = value.rid) then
    some (realPart3 (dftDim1 (dftDimLast (toC query.val))))
  else none

/-- One FNetEncoderLayer: Fourier mixing and feed-forward, each wrapped in
a SublayerConnection. -/
structure FNetLayer where
  size : ℕ
  feed_forward : FFParams
  sub0 : SubParams
  sub1 : SubParams

/-- FNetEncoderLayer.forward: the lambda x: fft(x, x, x) passes one and the
same reference three times, so the identity assertion holds. -/
def fnetLayerForward (fl : FNetLayer) (training : Bool) (ks : LayerKeeps)
    (x : Tensor3) : Option Tensor3 :=
  match sublayerConnection fl.sub0 training ks.sub0K x
      (fun nx =>
        let r : TRef := { rid := 0, val := nx }
        Option.map (fun y => (y, ())) (fourierFFTForward r r r)) with
  | none => none
  | some (x1, _) =>
    match sublayerConnection fl.sub1 training ks.sub1K x1
        (fun nx => Option.map (fun y => (y, ()))
          (ffForward fl.feed_forward training ks.ffK nx)) with
    | none => none
    | some (x2, _) => some x2

/-- An FNetEncoder: the cloned Fourier layers and the trailing norm. -/
structure FNetEncParams where
  layers : List FNetLayer
  norm : LNParams

/-- Pass the input through each Fourier layer in turn. -/
def fnetLayersForward (training : Bool) (ksF : ℕ → LayerKeeps) :
    List FNetLayer → ℕ → Tensor3 → Option Tensor3
  | [], _, x => some x
  | l :: rest, i, x =>
    match fnetLayerForward l training (ksF i) x with
    | none => none
    | some x1 => fnetLayersForward training ksF rest (i + 1) x1

/-- FNetEncoder.forward: all layers in turn, then the trailing norm (which
is applied even when the layer list is empty). -/
def fnetEncoderForward (fp : FNetEncParams) (training : Bool)
    (ksF : ℕ → LayerKeeps) (x : Tensor3) : Option Tensor3 :=
  match fnetLayersForward training ksF fp.layers 0 x with
  | none => none
  | some x1 => layerNorm fp.norm x1

/-- The output head nn.Sequential(Flatten, Dropout, Linear). -/
structure HeadParams where
  p : ℚ
  lin : LinParams

/-- nn.Flatten on a 3-D tensor: merge all axes after the batch axis. -/
def flatten3 (x : Tensor3) : Tensor2 :=
  { n0 := x.n0, n1 := x.n1 * x.n2,
    data := fun a i => x.data a (i / x.n2) (i % x.n2) }

/-- Forward of the output head: flatten, dropout, linear. -/
def headForward (hp : HeadParams) (training : Bool) (keep : Keep2)
    (x : Tensor3) : Option Tensor2 :=
  linear2 hp.lin (fdropout2 hp.p training keep (flatten3 x))

/-- The dropout draws consumed by one full forward call. -/
structure ForwardKeeps where
  peK : Keep3
  headK : Keep2
  encK : ℕ → LayerKeeps
  fnetK : ℕ → LayerKeeps

/-- The pure-attention model: encoder, positional embedding, output head,
convolution front end. -/
structure TransformerModelS where
  encoder : EncParams
  src_embed : PEParams
  linear : HeadParams
  conv : ConvParams

/-- TransformerModel.forward (src/model.py lines 39-43): conv, positional
embedding, encoder (with optional mask), head, ReLU; the returned model
carries the encoder state updated by the attention modules. -/
def transformerModelForward (m : TransformerModelS) (src : Tensor3)
    (src_mask : Option Tensor3) (training : Bool) (fk : ForwardKeeps) :
    Option (Tensor2 × TransformerModelS) :=
  match convLayerForward m.conv src with
  | none => none
  | some c =>
    match peForward m.src_embed training fk.peK c with
    | none => none
    | some e =>
      match transformerEncoderForward m.encoder training fk.encK e src_mask with
      | none => none
      | some (enc, ep2) =>
        match headForward m.linear training fk.headK enc with
        | none => none
        | some out => some (relu2 out, { m with encoder := ep2 })

/-- The hybrid model: one-layer attention encoder, positional embedding,
output head, Fourier stack, convolution front end. -/
structure FNetHybridModelS where
  trans : EncParams
  src_embed : PEParams
  linear : HeadParams
  fnet : FNetEncParams
  conv : ConvParams

/-- FNetHybridModel.forward (src/model.py lines 199-203): conv, positional
embedding, attention encoder, Fourier encoder, head, ReLU. -/
def fnetHybridModelForward (m : FNetHybridModelS) (src : Tensor3)
    (src_mask : Option Tensor3) (training : Bool) (fk : ForwardKeeps) :
    Option (Tensor2 × FNetHybridModelS) :=
  match convLayerForward m.conv src with
  | none => none
  | some c =>
    match peForward m.src_embed training fk.peK c with
    | none => none
    | some e =>
      match transformerEncoderForward m.trans training fk.encK e src_mask with
      | none => none
      | some (t1, ep2) =>
        match fnetEncoderForward m.fnet training fk.fnetK t1 with
        | none => none
        | some f1 =>
          match headForward m.linear training fk.headK f1 with
          | none => none
          | some out => some (relu2 out, { m with trans := ep2 })

/-- One draw of all the randomly initialized parameter tensors of a model:
Xavier-uniform weights and default-initialized biases, indexed per cloned
layer since every deep-copied layer is re-randomized independently. -/
structure InitW where
  convW : ℕ → ℕ → ℕ → ℝ
  convB : ℕ → ℝ
  mhaW : ℕ → ℕ → ℕ → ℕ → ℝ
  mhaB : ℕ → ℕ → ℕ → ℝ
  ffW1 : ℕ → ℕ → ℕ → ℝ
  ffB1 : ℕ → ℕ → ℝ
  ffW2 : ℕ → ℕ → ℕ → ℝ
  ffB2 : ℕ → ℕ → ℝ
  fnetFfW1 : ℕ → ℕ → ℕ → ℝ
  fnetFfB1 : ℕ → ℕ → ℝ
  fnetFfW2 : ℕ → ℕ → ℕ → ℝ
  fnetFfB2 : ℕ → ℕ → ℝ
  headW : ℕ → ℕ → ℝ
  headB : ℕ → ℝ

/-- The all-zero parameter draw. -/
def initZero : InitW :=
  { convW := fun _ _ _ => 0, convB := fun _ => 0,
    mhaW := fun _ _ _ _ => 0, mhaB := fun _ _ _ => 0,
    ffW1 := fun _ _ _ => 0, ffB1 := fun _ _ => 0,
    ffW2 := fun _ _ _ => 0, ffB2 := fun _ _ => 0,
    fnetFfW1 := fun _ _ _ => 0, fnetFfB1 := fun _ _ => 0,
    fnetFfW2 := fun _ _ _ => 0, fnetFfB2 := fun _ _ => 0,
    headW := fun _ _ => 0, headB := fun _ => 0 }

/-- The checks every factory construction runs through, in the order the
Python constructors hit them: nn.Dropout validates the probability, the
MultiHeadAttention constructor divides and asserts on d_model % h (a
ZeroDivisionError when h = 0, an AssertionError when the remainder is
nonzero), and the Xavier-uniform loop divides by fan_in + fan_out of every
parameter with more than one dimension, which is zero for the [d, d, k]
convolution weight exactly when d*k = 0. -/
def createOk (d_model h k : ℕ) (p : ℚ) : Prop :=
  0 ≤ p ∧ p ≤ 1 ∧ h ≠ 0 ∧ d_model % h = 0 ∧ d_model ≠ 0 ∧ k ≠ 0

instance (d_model h k : ℕ) (p : ℚ) : Decidable (createOk d_model h k p) := by
  unfold createOk; infer_instance

/-- Build the i-th independently initialized TransformerEncoderLayer. -/
def mkTransLayer (i d_model h d_ff : ℕ) (p : ℚ) (device : Device)
    (init : InitW) : TransLayer :=
  { size := d_model,
    self_attn :=
      { h := h, d_k := d_model / h, p := p,
        lin0 := { outF := d_model, inF := d_model, w := init.mhaW i 0, b := init.mhaB i 0 },
        lin1 := { outF := d_model, inF := d_model, w := init.mhaW i 1, b := init.mhaB i 1 },
        lin2 := { outF := d_model, inF := d_model, w := init.mhaW i 2, b := init.mhaB i 2 },
        lin3 := { outF := d_model, inF := d_model, w := init.mhaW i 3, b := init.mhaB i 3 },
        attn := none, device := device },
    feed_forward :=
      { w_1 := { outF := d_ff, inF := d_model, w := init.ffW1 i, b := init.ffB1 i },
        w_2 := { outF := d_model, inF := d_ff, w := init.ffW2 i, b := init.ffB2 i },
        p := p },
    sub0 := { norm := lnDefault d_model, p := p },
    sub1 := { norm := lnDefault d_model, p := p } }

/-- Build the i-th independently initialized FNetEncoderLayer. -/
def mkFNetLayer (i d_model d_ff : ℕ) (p : ℚ) (init : InitW) : FNetLayer :=
  { size := d_model,
    feed_forward :=
      { w_1 := { outF := d_ff, inF := d_model, w := init.fnetFfW1 i, b := init.fnetFfB1 i },
        w_2 := { outF := d_model, inF := d_ff, w := init.fnetFfW2 i, b := init.fnetFfB2 i },
        p := p },
    sub0 := { norm := lnDefault d_model, p := p },
    sub1 := { norm := lnDefault d_model, p := p } }

/-- create_transformer_kernel_even (src/model.py lines 251-273): the
attention-only model whose output head expects width d_model * (l_win - 1). -/
def create_transformer_kernel_even (N d_model l_win : ℕ) (device : Device)
    (kernel_size d_ff h : ℕ) (dropout : ℚ) (init : InitW) :
    Option TransformerModelS :=
  let d_ff2 := if d_ff = 0 then d_model * 4 else d_ff
  if (createOk d_model h kernel_size dropout) then
    some { encoder :=
             { layers := (List.range N).map
                 (fun i => mkTransLayer i d_model h d_ff2 dropout device init),
               norm := lnDefault d_model },
           src_embed := { d_model := d_model, maxLen := l_win, p := dropout },
           linear := { p := dropout,
                       lin := { outF := 1, inF := d_model * (l_win - 1),
                                w := init.headW, b := init.headB } },
           conv := { ch := d_model, k := kernel_size, w := init.convW, b := init.convB } }
  else none

/-- create_transformer_kernel_odd (lines 276-298): output-head width
d_model * l_win. -/
def create_transformer_kernel_odd (N d_model l_win : ℕ) (device : Device)
    (kernel_size d_ff h : ℕ) (dropout : ℚ) (init : InitW) :
    Option TransformerModelS :=
  let d_ff2 := if d_ff = 0 then d_model * 4 else d_ff
  if (createOk d_model h kernel_size dropout) then
    some { encoder :=
             { layers := (List.range N).map
                 (fun i => mkTransLayer i d_model h d_ff2 dropout device init),
               norm := lnDefault d_model },
           src_embed := { d_model := d_model, maxLen := l_win, p := dropout },
           linear := { p := dropout,
                       lin := { outF := 1, inF := d_model * l_win,
                                w := init.headW, b := init.headB } },
           conv := { ch := d_model, k := kernel_size, w := init.convW, b := init.convB } }
  else none

/-- create_fnet_hybrid_kernel_even (lines 301-325): one attention layer,
N - 1 Fourier layers, output-head width d_model * (l_win - 1). -/
def create_fnet_hybrid_kernel_even (N d_model l_win : ℕ) (device : Device)
    (kernel_size d_ff h : ℕ) (dropout : ℚ) (init : InitW) :
    Option FNetHybridModelS :=
  let d_ff2 := if d_ff = 0 then d_model * 4 else d_ff
  if (createOk d_model h kernel_size dropout) then
    some { trans :=
             { layers := (List.range 1).map
                 (fun i => mkTransLayer i d_model h d_ff2 dropout device init),
               norm := lnDefault d_model },
           src_embed := { d_model := d_model, maxLen := l_win, p := dropout },
           linear := { p := dropout,
                       lin := { outF := 1, inF := d_model * (l_win - 1),
                                w := init.headW, b := init.headB } },
           fnet :=
             { layers := (List.range (N - 1)).map
                 (fun i => mkFNetLayer i d_model d_ff2 dropout init),
               norm := lnDefault d_model },
           conv := { ch := d_model, k := kernel_size, w := init.convW, b := init.convB } }
  else none

/-- create_fnet_hybrid_kernel_odd (lines 328-352): one attention layer,
N - 1 Fourier layers, output-head width d_model * l_win. -/
def create_fnet_hybrid_kernel_odd (N d_model l_win : ℕ) (device : Device)
    (kernel_size d_ff h : ℕ) (dropout : ℚ) (init : InitW) :
    Option FNetHybridModelS :=
  let d_ff2 := if d_ff = 0 then d_model * 4 else d_ff
  if (createOk d_model h kernel_size dropout) then
    some { trans :=
             { layers := (List.range 1).map
                 (fun i => mkTransLayer i d_model h d_ff2 dropout device init),
               norm := lnDefault d_model },
           src_embed := { d_model := d_model, maxLen := l_win, p := dropout },
           linear := { p := dropout,
                       lin := { outF := 1, inF := d_model * l_win,
                                w := init.headW, b := init.headB } },
           fnet :=
             { layers := (List.range (N - 1)).map
                 (fun i => mkFNetLayer i d_model d_ff2 dropout init),
               norm := lnDefault d_model },
           conv := { ch := d_model, k := kernel_size, w := init.convW, b := init.convB } }
  else none

/-- C3 counterexample: at d_model = 0, h = 1, N = 1, l_win = 1,
kernel_size = 1 the divisibility condition d_model mod h = 0 holds and all
the claim's bounds are met, yet construction fails (the Xavier-uniform fan
computation for the [0, 0, 1] convolution weight divides by zero), so
construction does not succeed for every tuple with d_model mod h = 0. -/
theorem create_dmodel_zero_fails :
    (0 : ℕ) % 1 = 0 ∧ (1 : ℕ) ≥ 1 ∧
    create_transformer_kernel_odd 1 0 1 0 1 0 1 (1/10) initZero = none := by
  refine ⟨rfl, le_refl 1, ?_⟩
  rw [create_transformer_kernel_odd, if_neg]
  unfold createOk
  simp

/-- C3 (amended): every factory fails whenever d_model mod h is nonzero;
and for every tuple with h at least 1, d_model at least 1, d_model mod
h = 0, dropout in [0, 1], N at least 1, l_win at least 1 and kernel_size
at least 1, all four factories succeed.  (At h = 0 or d_model = 0 the
construction also fails, by division by zero in the head-divisibility
check resp. in the Xavier fan computation.) -/
theorem create_divisibility (N d_model l_win : ℕ) (device : Device)
    (kernel_size d_ff h : ℕ) (dropout : ℚ) (init : InitW) :
    (d_model % h ≠ 0 →
      create_transformer_kernel_even N d_model l_win device kernel_size d_ff h dropout init = none ∧
      create_transformer_kernel_odd N d_model l_win device kernel_size d_ff h dropout init = none ∧
      create_fnet_hybrid_kernel_even N d_model l_win device kernel_size d_ff h dropout init = none ∧
      create_fnet_hybrid_kernel_odd N d_model l_win device kernel_size d_ff h dropout init = none) ∧
    (0 ≤ dropout → dropout ≤ 1 → 1 ≤ h → 1 ≤ d_model → d_model % h = 0 →
     1 ≤ N → 1 ≤ l_win → 1 ≤ kernel_size →
      (create_transformer_kernel_even N d_model l_win device kernel_size d_ff h dropout init).isSome ∧
      (create_transformer_kernel_odd N d_model l_win device kernel_size d_ff h dropout init).isSome ∧
      (create_fnet_hybrid_kernel_even N d_model l_win device kernel_size d_ff h dropout init).isSome ∧
      (create_fnet_hybrid_kernel_odd N d_model l_win device kernel_size d_ff h dropout init).isSome) := by
  constructor
  · intro hmod
    have hno : ¬ createOk d_model h kernel_size dropout := by
      unfold createOk
      tauto
    refine ⟨?_, ?_, ?_, ?_⟩ <;>
      simp only [create_transformer_kernel_even, create_transformer_kernel_odd,
        create_fnet_hybrid_kernel_even, create_fnet_hybrid_kernel_odd, if_neg hno]
  · intro hp0 hp1 hh hd hmod _ _ hk
    have hok : createOk d_model h kernel_size dropout :=
      ⟨hp0, hp1, by omega, hmod, by omega, by omega⟩
    refine ⟨?_, ?_, ?_, ?_⟩ <;>
      simp only [create_transformer_kernel_even, create_transformer_kernel_odd,
        create_fnet_hybrid_kernel_even, create_fnet_hybrid_kernel_odd, if_pos hok,
        Option.isSome_some]

/-- Witness for the amended C3 theorem: at h = 2, d_model = 8 the four
factories succeed, and at h = 3, d_model = 8 the odd transformer factory
fails. -/
theorem create_divisibility_witness :
    (create_transformer_kernel_odd 1 8 2 0 3 0 2 (1/10) initZero).isSome ∧
    create_transformer_kernel_odd 1 8 2 0 3 0 3 (1/10) initZero = none := by
  constructor
  · exact ((create_divisibility 1 8 2 0 3 0 2 (1/10) initZero).2 (by norm_num)
      (by norm_num) (by norm_num) (by norm_num) (by norm_num) (by norm_num)
      (by norm_num) (by norm_num)).2.1
  · exact ((create_divisibility 1 8 2 0 3 0 3 (1/10) initZero).1 (by norm_num)).2.1

/-- C4: for every N at least 1 (and construction-valid parameters), both
hybrid factories succeed and return a model whose attention encoder has
exactly 1 layer and whose Fourier stack has exactly N - 1 layers; in
particular N = 1 succeeds and yields zero Fourier-mixing layers. -/
theorem fnet_hybrid_composition (N d_model l_win : ℕ) (device : Device)
    (kernel_size d_ff h : ℕ) (dropout : ℚ) (init : InitW)
    (hp0 : 0 ≤ dropout) (hp1 : dropout ≤ 1) (hh : 1 ≤ h) (hd : 1 ≤ d_model)
    (hmod : d_model % h = 0) (_hN : 1 ≤ N) (hk : 1 ≤ kernel_size) :
    ∃ me mo : FNetHybridModelS,
      create_fnet_hybrid_kernel_even N d_model l_win device kernel_size d_ff h dropout init = some me ∧
      me.trans.layers.length = 1 ∧ me.fnet.layers.length = N - 1 ∧
      create_fnet_hybrid_kernel_odd N d_model l_win device kernel_size d_ff h dropout init = some mo ∧
      mo.trans.layers.length = 1 ∧ mo.fnet.layers.length = N - 1 := by
  have hok : createOk d_model h kernel_size dropout :=
    ⟨hp0, hp1, by omega, hmod, by omega, by omega⟩
  simp only [create_fnet_hybrid_kernel_even, create_fnet_hybrid_kernel_odd, if_pos hok]
  refine ⟨_, _, rfl, ?_, ?_, rfl, ?_, ?_⟩ <;> simp

/-- Witness for C4 at N = 1: the hybrid factories succeed and the Fourier
stack is empty. -/
theorem fnet_hybrid_composition_witness :
    ∃ me mo : FNetHybridModelS,
      create_fnet_hybrid_kernel_even 1 8 2 0 4 0 2 (1/10) initZero = some me ∧
      me.trans.layers.length = 1 ∧ me.fnet.layers.length = 1 - 1 ∧
      create_fnet_hybrid_kernel_odd 1 8 2 0 4 0 2 (1/10) initZero = some mo ∧
      mo.trans.layers.length = 1 ∧ mo.fnet.layers.length = 1 - 1 :=
  fnet_hybrid_composition 1 8 2 0 4 0 2 (1/10) initZero (by norm_num) (by norm_num)
    (by norm_num) (by norm_num) (by norm_num) (by norm_num) (by norm_num)

/-- C7: the Fourier-mixing layer fails whenever query, key, value are not
the same object reference (whatever their values), and on one reference r
it succeeds and returns the real part of a discrete Fourier transform
taken first along the feature axis and then along the time axis, a
real-valued tensor of the same shape as the input. -/
theorem fourierFFTLayer_contract :
    (∀ query key value : TRef, (query.rid ≠ key.rid ∨ key.rid ≠ value.rid) →
      fourierFFTForward query key value = none) ∧
    (∀ r : TRef, ∃ y : Tensor3,
      fourierFFTForward r r r = some y ∧
      y.n0 = r.val.n0 ∧ y.n1 = r.val.n1 ∧ y.n2 = r.val.n2 ∧
      ∀ a b c : ℕ, y.data a b c = ((dftDim1 (dftDimLast (toC r.val))).data a b c).re) := by
  constructor
  · intro q k v hne
    unfold fourierFFTForward
    rw [if_neg (by tauto)]
  · intro r
    have h : fourierFFTForward r r r =
        some (realPart3 (dftDim1 (dftDimLast (toC r.val)))) := by
      unfold fourierFFTForward
      rw [if_pos ⟨rfl, rfl⟩]
    exact ⟨_, h, rfl, rfl, rfl, fun a b c => rfl⟩

/-- Witness for C7: distinct references (ids 0 and 1) over the same
all-zero tensor are rejected, and a single reference is accepted. -/
theorem fourierFFTLayer_contract_witness :
    fourierFFTForward
      { rid := 0, val := { n0 := 1, n1 := 1, n2 := 1, data := fun _ _ _ => 0 } }
      { rid := 1, val := { n0 := 1, n1 := 1, n2 := 1, data := fun _ _ _ => 0 } }
      { rid := 1, val := { n0 := 1, n1 := 1, n2 := 1, data := fun _ _ _ => 0 } } = none ∧
    ∃ y : Tensor3,
      fourierFFTForward
        { rid := 0, val := { n0 := 1, n1 := 1, n2 := 1, data := fun _ _ _ => 0 } }
        { rid := 0, val := { n0 := 1, n1 := 1, n2 := 1, data := fun _ _ _ => 0 } }
        { rid := 0, val := { n0 := 1, n1 := 1, n2 := 1, data := fun _ _ _ => 0 } } = some y ∧
      y.n0 = 1 ∧ y.n1 = 1 ∧ y.n2 = 1 := by
  constructor
  · exact fourierFFTLayer_contract.1 _ _ _ (Or.inl (by norm_num))
  · obtain ⟨y, hy, h0, h1, h2, _⟩ := fourierFFTLayer_contract.2
      { rid := 0, val := { n0 := 1, n1 := 1, n2 := 1, data := fun _ _ _ => 0 } }
    exact ⟨y, hy, h0, h1, h2⟩

/-- Shape facts about a successful batched matmul. -/
theorem matmul4_shape_of {x y z : Tensor4} (h : matmul4 x y = some z) :
    z.n0 = x.n0 ∧ z.n1 = x.n1 ∧ z.n2 = x.n2 ∧ z.n3 = y.n3 := by
  unfold matmul4 at h
  split at h
  · injection h with h
    subst h
    exact ⟨rfl, rfl, rfl, rfl⟩
  · cases h

/-- A batched matmul with agreeing dimensions succeeds. -/
theorem matmul4_some {x y : Tensor4} (h0 : x.n0 = y.n0) (h1 : x.n1 = y.n1)
    (h3 : x.n3 = y.n2) : ∃ z, matmul4 x y = some z := by
  unfold matmul4
  rw [if_pos ⟨h0, h1, h3⟩]
  exact ⟨_, rfl⟩

/-- Shape facts about a successful masked fill. -/
theorem maskedFill4_shape_of {x m z : Tensor4} (h : maskedFill4 x m = some z) :
    z.n0 = x.n0 ∧ z.n1 = x.n1 ∧ z.n2 = x.n2 ∧ z.n3 = x.n3 := by
  unfold maskedFill4 at h
  split at h
  · injection h with h
    subst h
    exact ⟨rfl, rfl, rfl, rfl⟩
  · cases h

/-- A masked fill with a broadcastable mask succeeds. -/
theorem maskedFill4_some {x m : Tensor4}
    (h : (m.n0 = 1 ∨ m.n0 = x.n0) ∧ (m.n1 = 1 ∨ m.n1 = x.n1) ∧
         (m.n2 = 1 ∨ m.n2 = x.n2) ∧ (m.n3 = 1 ∨ m.n3 = x.n3)) :
    ∃ z, maskedFill4 x m = some z := by
  unfold maskedFill4
  rw [if_pos h]
  exact ⟨_, rfl⟩

/-- Dropout on a 4-D tensor preserves the shape. -/
theorem fdropout4_shape (p : ℚ) (t : Bool) (keep : Keep4) (x : Tensor4) :
    (fdropout4 p t keep x).n0 = x.n0 ∧ (fdropout4 p t keep x).n1 = x.n1 ∧
    (fdropout4 p t keep x).n2 = x.n2 ∧ (fdropout4 p t keep x).n3 = x.n3 := by
  unfold fdropout4
  split <;> exact ⟨rfl, rfl, rfl, rfl⟩

/-- Dropout on a 3-D tensor preserves the shape. -/
theorem fdropout3_shape (p : ℚ) (t : Bool) (keep : Keep3) (x : Tensor3) :
    (fdropout3 p t keep x).n0 = x.n0 ∧ (fdropout3 p t keep x).n1 = x.n1 ∧
    (fdropout3 p t keep x).n2 = x.n2 := by
  unfold fdropout3
  split <;> exact ⟨rfl, rfl, rfl⟩

/-- Dropout on a 2-D tensor preserves the shape. -/
theorem fdropout2_shape (p : ℚ) (t : Bool) (keep : Keep2) (x : Tensor2) :
    (fdropout2 p t keep x).n0 = x.n0 ∧ (fdropout2 p t keep x).n1 = x.n1 := by
  unfold fdropout2
  split <;> exact ⟨rfl, rfl⟩

/-- The attention primitive succeeds whenever the mask, if any, is
broadcastable to the score shape, and both outputs have the expected
shapes: the weighted values match the query shape and the weights form an
L-by-L block per head. -/
theorem attention_shape (q k v : Tensor4) (dev : Device) (mask : Option Tensor4)
    (p : ℚ) (keep : Keep4)
    (hmask : ∀ m ∈ mask, (m.n0 = 1 ∨ m.n0 = q.n0) ∧ (m.n1 = 1 ∨ m.n1 = q.n1) ∧
      (m.n2 = 1 ∨ m.n2 = q.n2) ∧ (m.n3 = 1 ∨ m.n3 = q.n2)) :
    ∃ out w, attention q k v dev mask p keep = some (out, w) ∧
      out.n0 = q.n0 ∧ out.n1 = q.n1 ∧ out.n2 = q.n2 ∧ out.n3 = q.n3 ∧
      w.n0 = q.n0 ∧ w.n1 = q.n1 ∧ w.n2 = q.n2 ∧ w.n3 = q.n2 := by
  simp only [attention, toDevice4]
  split
  case _ heq =>
    exact absurd heq (by
      obtain ⟨z, hz⟩ := matmul4_some (x := q) (y := transposeLast2 q) rfl rfl rfl
      simp [hz])
  case _ s0 heq =>
    obtain ⟨e0, e1, e2, e3⟩ := matmul4_shape_of heq
    have hs : (transposeLast2 q).n3 = q.n2 := rfl
    split
    case _ hm =>
      exfalso
      cases mask with
      | none => simp at hm
      | some m =>
        simp only at hm
        obtain ⟨z, hz⟩ := maskedFill4_some
          (x := divScalar4 s0 (Real.sqrt (q.n3 : ℝ))) (m := m) (by
            have := hmask m rfl
            simp only [divScalar4]
            rw [e0, e1, e2]
            rw [hs] at e3
            rw [e3]
            exact this)
        rw [hz] at hm
        cases hm
    case _ sc hm =>
      have hsc : sc.n0 = q.n0 ∧ sc.n1 = q.n1 ∧ sc.n2 = q.n2 ∧ sc.n3 = q.n2 := by
        cases mask with
        | none =>
          simp only at hm
          injection hm with hm
          subst hm
          simp only [divScalar4]
          rw [hs] at e3
          exact ⟨e0, e1, e2, e3⟩
        | some m =>
          simp only at hm
          have := maskedFill4_shape_of hm
          simp only [divScalar4] at this
          rw [hs] at e3
          exact ⟨this.1.trans e0, this.2.1.trans e1, this.2.2.1.trans e2,
            this.2.2.2.trans e3⟩
      obtain ⟨c0, c1, c2, c3⟩ := hsc
      have hp := fdropout4_shape p true keep (softmax4 sc)
      split
      case _ heq2 =>
        exfalso
        obtain ⟨z, hz⟩ := matmul4_some
          (x := fdropout4 p true keep (softmax4 sc)) (y := q)
          (by rw [hp.1]; exact c0) (by rw [hp.2.1]; exact c1)
          (by rw [hp.2.2.2]; exact c3)
        rw [hz] at heq2
        cases heq2
      case _ out heq2 =>
        obtain ⟨o0, o1, o2, o3⟩ := matmul4_shape_of heq2
        refine ⟨out, _, rfl, ?_, ?_, ?_, ?_, ?_, ?_, ?_, ?_⟩
        · rw [o0, hp.1]; exact c0
        · rw [o1, hp.2.1]; exact c1
        · rw [o2, hp.2.2.1]; exact c2
        · exact o3
        · rw [hp.1]; exact c0
        · rw [hp.2.1]; exact c1
        · rw [hp.2.2.1]; exact c2
        · rw [hp.2.2.2]; exact c3

/-- A linear layer on a 3-D tensor succeeds iff the width matches; shapes. -/
theorem linear3_some {lp : LinParams} {x : Tensor3} (h : x.n2 = lp.inF) :
    ∃ y, linear3 lp x = some y ∧ y.n0 = x.n0 ∧ y.n1 = x.n1 ∧ y.n2 = lp.outF := by
  unfold linear3
  rw [if_pos h]
  exact ⟨_, rfl, rfl, rfl, rfl⟩

/-- Inversion for linear3. -/
theorem linear3_shape_of {lp : LinParams} {x y : Tensor3} (h : linear3 lp x = some y) :
    y.n0 = x.n0 ∧ y.n1 = x.n1 ∧ y.n2 = lp.outF := by
  unfold linear3 at h
  split at h
  · injection h with h
    subst h
    exact ⟨rfl, rfl, rfl⟩
  · cases h

/-- A linear layer on a 2-D tensor succeeds iff the width matches. -/
theorem linear2_some {lp : LinParams} {x : Tensor2} (h : x.n1 = lp.inF) :
    ∃ y, linear2 lp x = some y ∧ y.n0 = x.n0 ∧ y.n1 = lp.outF := by
  unfold linear2
  rw [if_pos h]
  exact ⟨_, rfl, rfl, rfl⟩

/-- LayerNorm succeeds iff the last axis matches its size; shape preserved. -/
theorem layerNorm_some {ln : LNParams} {x : Tensor3} (h : x.n2 = ln.size) :
    ∃ y, layerNorm ln x = some y ∧ y.n0 = x.n0 ∧ y.n1 = x.n1 ∧ y.n2 = x.n2 := by
  unfold layerNorm
  rw [if_pos h]
  exact ⟨_, rfl, rfl, rfl, rfl⟩

/-- Inversion for layerNorm. -/
theorem layerNorm_shape_of {ln : LNParams} {x y : Tensor3} (h : layerNorm ln x = some y) :
    y.n0 = x.n0 ∧ y.n1 = x.n1 ∧ y.n2 = x.n2 := by
  unfold layerNorm at h
  split at h
  · injection h with h
    subst h
    exact ⟨rfl, rfl, rfl⟩
  · cases h

/-- The view to per-head form succeeds when the feature width is exactly
h * d_k (nonzero), and then keeps the batch and time dimensions. -/
theorem view3to4_some {hh dk : ℕ} {x : Tensor3} (hw : x.n2 = hh * dk)
    (hpos : 0 < hh * dk) :
    ∃ y, view3to4 hh dk x = some y ∧
      y.n0 = x.n0 ∧ y.n1 = x.n1 ∧ y.n2 = hh ∧ y.n3 = dk := by
  unfold view3to4
  rw [if_pos ⟨hpos, ⟨x.n1, by rw [hw]; ring⟩⟩]
  refine ⟨_, rfl, rfl, ?_, rfl, rfl⟩
  rw [hw, Nat.mul_div_cancel _ hpos]

/-- Broadcast of a dimension against an equal one. -/
theorem bDim_self (a : ℕ) : bDim a a = some a := by
  unfold bDim
  rw [if_pos rfl]

/-- Broadcast of a dimension against 1. -/
theorem bDim_one_right (a : ℕ) : bDim a 1 = some a := by
  unfold bDim
  by_cases h : a = 1
  · rw [if_pos h]
  · rw [if_neg h, if_neg h, if_pos rfl]

/-- Addition of equal-shaped tensors succeeds and keeps the shape. -/
theorem addB3_same {x y : Tensor3} (h0 : y.n0 = x.n0) (h1 : y.n1 = x.n1)
    (h2 : y.n2 = x.n2) :
    ∃ z, addB3 x y = some z ∧ z.n0 = x.n0 ∧ z.n1 = x.n1 ∧ z.n2 = x.n2 := by
  unfold addB3
  rw [h0, h1, h2, bDim_self, bDim_self, bDim_self]
  exact ⟨_, rfl, rfl, rfl, rfl⟩

/-- The positional-encoding forward succeeds when the input length is at
most the table length and the width matches; the shape is preserved. -/
theorem peForward_some {pp : PEParams} {x : Tensor3} (training : Bool) (keep : Keep3)
    (hL : x.n1 ≤ pp.maxLen) (hd : x.n2 = pp.d_model) :
    ∃ y, peForward pp training keep x = some y ∧
      y.n0 = x.n0 ∧ y.n1 = x.n1 ∧ y.n2 = x.n2 := by
  unfold peForward peSliceT
  have hmin : min x.n1 pp.maxLen = x.n1 := min_eq_left hL
  rw [hmin]
  unfold addB3
  simp only [hd, bDim_one_right, bDim_self, Option.map_some]
  exact ⟨_, rfl, (fdropout3_shape _ _ _ _).1, (fdropout3_shape _ _ _ _).2.1,
    (fdropout3_shape _ _ _ _).2.2⟩

/-- A mask argument (if present) is broadcastable against attention scores
for batch size b and sequence length L once unsqueezed over heads. -/
def MaskOk (mask : Option Tensor3) (bn L : ℕ) : Prop :=
  ∀ m ∈ mask, (m.n0 = 1 ∨ m.n0 = bn) ∧ (m.n1 = 1 ∨ m.n1 = L) ∧ (m.n2 = 1 ∨ m.n2 = L)

/-- Width constraints of a LinParams record. -/
def LinShape (lp : LinParams) (o i : ℕ) : Prop := lp.outF = o ∧ lp.inF = i

/-- Constraints making a MultiHeadAttention module act on width d. -/
def MHAShape (mp : MHAParams) (d : ℕ) : Prop :=
  mp.h * mp.d_k = d ∧ 0 < d ∧ LinShape mp.lin0 d d ∧ LinShape mp.lin1 d d ∧
  LinShape mp.lin2 d d ∧ LinShape mp.lin3 d d

/-- MultiHeadAttention.forward succeeds on a width-d input with a
broadcastable mask; the output keeps the input's batch and time dimensions
with width d, and the returned module state is the input state with the
attn cache replaced by the freshly computed attention weights. -/
theorem multiHeadAttention_some {mp : MHAParams} {x : Tensor3} {d : ℕ}
    (mask : Option Tensor3) (keepA : Keep4)
    (hm : MHAShape mp d) (hx : x.n2 = d) (hmask : MaskOk mask x.n0 x.n1) :
    ∃ out w, multiHeadAttentionForward mp x x x mask keepA =
        some (out, { mp with attn := some w }) ∧
      out.n0 = x.n0 ∧ out.n1 = x.n1 ∧ out.n2 = d := by
  obtain ⟨hhd, hpos, hl0, hl1, hl2, hl3⟩ := hm
  obtain ⟨q3, hq3, hq0, hq1, hq2⟩ := @linear3_some mp.lin0 x (hx.trans hl0.2.symm)
  obtain ⟨k3, hk3, hk0, hk1, hk2⟩ := @linear3_some mp.lin1 x (hx.trans hl1.2.symm)
  obtain ⟨v3, hv3, hv0, hv1, hv2⟩ := @linear3_some mp.lin2 x (hx.trans hl2.2.symm)
  have hposhd : 0 < mp.h * mp.d_k := by rw [hhd]; exact hpos
  obtain ⟨q4, hq4, hq40, hq41, hq42, hq43⟩ :=
    view3to4_some (x := q3) (by rw [hq2, hl0.1, ← hhd]) hposhd
  obtain ⟨k4, hk4, hk40, hk41, hk42, hk43⟩ :=
    view3to4_some (x := k3) (by rw [hk2, hl1.1, ← hhd]) hposhd
  obtain ⟨v4, hv4, hv40, hv41, hv42, hv43⟩ :=
    view3to4_some (x := v3) (by rw [hv2, hl2.1, ← hhd]) hposhd
  have hmask4 : ∀ m4 ∈ Option.map unsqueeze1 mask,
      (m4.n0 = 1 ∨ m4.n0 = (transpose12 q4).n0) ∧
      (m4.n1 = 1 ∨ m4.n1 = (transpose12 q4).n1) ∧
      (m4.n2 = 1 ∨ m4.n2 = (transpose12 q4).n2) ∧
      (m4.n3 = 1 ∨ m4.n3 = (transpose12 q4).n2) := by
    intro m4 hm4
    cases mask with
    | none => cases hm4
    | some m =>
      injection hm4 with hm4
      subst hm4
      have hmm := hmask m rfl
      have e0 : (transpose12 q4).n0 = x.n0 := by
        show q4.n0 = x.n0
        rw [hq40, hq0]
      have e2 : (transpose12 q4).n2 = x.n1 := by
        show q4.n1 = x.n1
        rw [hq41, hq1]
      constructor
      · show m.n0 = 1 ∨ m.n0 = (transpose12 q4).n0
        rw [e0]; exact hmm.1
      constructor
      · exact Or.inl rfl
      constructor
      · show m.n1 = 1 ∨ m.n1 = (transpose12 q4).n2
        rw [e2]; exact hmm.2.1
      · show m.n2 = 1 ∨ m.n2 = (transpose12 q4).n2
        rw [e2]; exact hmm.2.2
  obtain ⟨out4, w4, hatt, ho0, ho1, ho2, ho3, hw0, hw1, hw2, hw3⟩ :=
    attention_shape (transpose12 q4) (transpose12 k4) (transpose12 v4)
      mp.device (Option.map unsqueeze1 mask) mp.p keepA hmask4
  have hlin3in : (view4to3 (transpose12 out4)).n2 = mp.lin3.inF := by
    show out4.n1 * out4.n3 = mp.lin3.inF
    have e1 : out4.n1 = mp.h := by
      rw [ho1]
      show q4.n2 = mp.h
      exact hq42
    have e3 : out4.n3 = mp.d_k := by
      rw [ho3]
      show q4.n3 = mp.d_k
      exact hq43
    rw [e1, e3, hhd, hl3.2]
  obtain ⟨out, hout, ho30, ho31, ho32⟩ := linear3_some hlin3in
  refine ⟨out, w4, ?_, ?_, ?_, ?_⟩
  · simp only [multiHeadAttentionForward, hq3, hk3, hv3, hq4, hk4, hv4, hatt, hout]
  · rw [ho30]
    show out4.n0 = x.n0
    rw [ho0]
    show q4.n0 = x.n0
    rw [hq40, hq0]
  · rw [ho31]
    show out4.n2 = x.n1
    rw [ho2]
    show q4.n1 = x.n1
    rw [hq41, hq1]
  · rw [ho32, hl3.1]

/-- Constraints making a feed-forward block act on width d. -/
def FFShape (ff : FFParams) (d : ℕ) : Prop :=
  ff.w_1.inF = d ∧ ff.w_2.inF = ff.w_1.outF ∧ ff.w_2.outF = d

/-- The feed-forward block succeeds on width-d input and keeps the shape. -/
theorem ffForward_some {ff : FFParams} {x : Tensor3} {d : ℕ}
    (training : Bool) (keep : Keep3) (hf : FFShape ff d) (hx : x.n2 = d) :
    ∃ y, ffForward ff training keep x = some y ∧
      y.n0 = x.n0 ∧ y.n1 = x.n1 ∧ y.n2 = d := by
  obtain ⟨h1, h2, h3⟩ := hf
  obtain ⟨z1, hz1, hz10, hz11, hz12⟩ := @linear3_some ff.w_1 x (hx.trans h1.symm)
  have hdz : (fdropout3 ff.p training keep (relu3 z1)).n2 = ff.w_2.inF := by
    rw [(fdropout3_shape _ _ _ _).2.2]
    show z1.n2 = ff.w_2.inF
    rw [hz12, h2]
  obtain ⟨y, hy, hy0, hy1, hy2⟩ := linear3_some hdz
  refine ⟨y, ?_, ?_, ?_, ?_⟩
  · simp only [ffForward, hz1, hy]
  · rw [hy0, (fdropout3_shape _ _ _ _).1]
    show z1.n0 = x.n0
    exact hz10
  · rw [hy1, (fdropout3_shape _ _ _ _).2.1]
    show z1.n1 = x.n1
    exact hz11
  · rw [hy2, h3]

/-- A SublayerConnection around a shape-preserving sublayer succeeds and
preserves the shape; the auxiliary result threaded through satisfies any
predicate the sublayer guarantees. -/
theorem sublayerConnection_some {α : Type} {sp : SubParams} {x : Tensor3} {d : ℕ}
    (training : Bool) (keepD : Keep3) (f : Tensor3 → Option (Tensor3 × α))
    (P : α → Prop) (hn : sp.norm.size = d) (hx : x.n2 = d)
    (hf : ∀ nx : Tensor3, nx.n0 = x.n0 → nx.n1 = x.n1 → nx.n2 = d →
      ∃ y s, f nx = some (y, s) ∧ P s ∧ y.n0 = x.n0 ∧ y.n1 = x.n1 ∧ y.n2 = d) :
    ∃ r s, sublayerConnection sp training keepD x f = some (r, s) ∧ P s ∧
      r.n0 = x.n0 ∧ r.n1 = x.n1 ∧ r.n2 = d := by
  obtain ⟨nx, hnx, hnx0, hnx1, hnx2⟩ := @layerNorm_some sp.norm x (hx.trans hn.symm)
  obtain ⟨y, s, hy, hP, hy0, hy1, hy2⟩ := hf nx hnx0 hnx1 (hnx2.trans hx)
  have hd := fdropout3_shape sp.p training keepD y
  obtain ⟨r, hr, hr0, hr1, hr2⟩ := addB3_same (x := x) (y := fdropout3 sp.p training keepD y)
    (hd.1.trans hy0) (hd.2.1.trans hy1) (hd.2.2.trans (hy2.trans hx.symm))
  refine ⟨r, s, ?_, hP, hr0, hr1, hr2.trans hx⟩
  simp only [sublayerConnection, hnx, hy, hr]

/-- Constraints making a TransformerEncoderLayer act on width d. -/
def TransLayerShape (tl : TransLayer) (d : ℕ) : Prop :=
  MHAShape tl.self_attn d ∧ FFShape tl.feed_forward d ∧
  tl.sub0.norm.size = d ∧ tl.sub1.norm.size = d

/-- A TransformerEncoderLayer succeeds on width-d input with broadcastable
mask, preserves the shape, and the returned layer state is the old layer
with only the attention cache replaced. -/
theorem transLayer_some {tl : TransLayer} {x : Tensor3} {d : ℕ}
    (training : Bool) (ks : LayerKeeps) (mask : Option Tensor3)
    (hs : TransLayerShape tl d) (hx : x.n2 = d) (hmask : MaskOk mask x.n0 x.n1) :
    ∃ x2 w, transLayerForward tl training ks x mask =
        some (x2, { tl with self_attn := { tl.self_attn with attn := some w } }) ∧
      x2.n0 = x.n0 ∧ x2.n1 = x.n1 ∧ x2.n2 = d := by
  obtain ⟨hmha, hff, hn0, hn1⟩ := hs
  have hstep1 := @sublayerConnection_some _ tl.sub0 x d training ks.sub0K
    (fun nx => multiHeadAttentionForward tl.self_attn nx nx nx mask ks.attnK)
    (fun mha2 => ∃ w, mha2 = { tl.self_attn with attn := some w }) hn0 hx ?hf
  case hf =>
    intro nx h0 h1 h2
    obtain ⟨out, w, hout, ho0, ho1, ho2⟩ := @multiHeadAttention_some
      tl.self_attn nx _ mask ks.attnK hmha h2
      (by rw [h0, h1]; exact hmask)
    exact ⟨out, _, hout, ⟨w, rfl⟩, ho0.trans h0, ho1.trans h1, ho2⟩
  obtain ⟨x1, mha2, hx1, ⟨w, hw⟩, hx10, hx11, hx12⟩ := hstep1
  have hstep2 := @sublayerConnection_some _ tl.sub1 x1 d training ks.sub1K
    (fun nx => Option.map (fun y => (y, ()))
      (ffForward tl.feed_forward training ks.ffK nx))
    (fun _ => True) hn1 hx12 ?hf2
  case hf2 =>
    intro nx h0 h1 h2
    obtain ⟨y, hy, hy0, hy1, hy2⟩ := ffForward_some training ks.ffK hff h2
    exact ⟨y, (), by simp only [hy]; rfl, trivial, hy0.trans h0, hy1.trans h1, hy2⟩
  obtain ⟨x2, u, hx2, -, hx20, hx21, hx22⟩ := hstep2
  refine ⟨x2, w, ?_, hx20.trans hx10, hx21.trans hx11, hx22⟩
  simp only [transLayerForward, hx1, hx2, hw]

/-- The relation between an updated encoder layer and its pre-forward
state: identical except that the attention cache now holds some weights. -/
def AttnOnlyUpdate (l2 l : TransLayer) : Prop :=
  ∃ w, l2 = { l with self_attn := { l.self_attn with attn := some w } }

/-- The encoder layer fold succeeds on width-d input when every layer is
width-d and the mask broadcasts; shape preserved, and every returned layer
is its old self with only the attention cache updated. -/
theorem encLayers_some {d : ℕ} (training : Bool) (ksF : ℕ → LayerKeeps)
    (mask : Option Tensor3) :
    ∀ (ls : List TransLayer) (i : ℕ) (x : Tensor3),
      (∀ tl ∈ ls, TransLayerShape tl d) → x.n2 = d → MaskOk mask x.n0 x.n1 →
      ∃ y ls2, encLayersForward training ksF mask ls i x = some (y, ls2) ∧
        y.n0 = x.n0 ∧ y.n1 = x.n1 ∧ y.n2 = d ∧
        List.Forall₂ AttnOnlyUpdate ls2 ls := by
  intro ls
  induction ls with
  | nil =>
    intro i x _ hx _
    exact ⟨x, [], rfl, rfl, rfl, hx, List.Forall₂.nil⟩
  | cons l rest ih =>
    intro i x hls hx hmask
    obtain ⟨x1, w, hx1, h0, h1, h2⟩ := transLayer_some training (ksF i) mask
      (hls l (List.mem_cons_self l rest)) hx hmask
    obtain ⟨y, ls2, hy, hy0, hy1, hy2, hfa⟩ := ih (i + 1) x1
      (fun tl htl => hls tl (List.mem_cons_of_mem l htl)) h2
      (by rw [h0, h1]; exact hmask)
    refine ⟨y, _ :: ls2, ?_, hy0.trans h0, hy1.trans h1, hy2, List.Forall₂.cons ⟨w, rfl⟩ hfa⟩
    simp only [encLayersForward, hx1, hy]

/-- Constraints making a TransformerEncoder act on width d. -/
def EncShape (ep : EncParams) (d : ℕ) : Prop :=
  ep.norm.size = d ∧ ∀ tl ∈ ep.layers, TransLayerShape tl d

/-- The full encoder stack succeeds and preserves the shape; its new state
is the old one with only the per-layer attention caches updated. -/
theorem transformerEncoder_some {ep : EncParams} {x : Tensor3} {d : ℕ}
    (training : Bool) (ksF : ℕ → LayerKeeps) (mask : Option Tensor3)
    (hep : EncShape ep d) (hx : x.n2 = d) (hmask : MaskOk mask x.n0 x.n1) :
    ∃ y ls2, transformerEncoderForward ep training ksF x mask =
        some (y, { ep with layers := ls2 }) ∧
      y.n0 = x.n0 ∧ y.n1 = x.n1 ∧ y.n2 = d ∧
      List.Forall₂ AttnOnlyUpdate ls2 ep.layers := by
  obtain ⟨y1, ls2, h1, h10, h11, h12, hfa⟩ :=
    encLayers_some training ksF mask ep.layers 0 x hep.2 hx hmask
  obtain ⟨y, hy, hy0, hy1, hy2⟩ := @layerNorm_some ep.norm y1 (h12.trans hep.1.symm)
  refine ⟨y, ls2, ?_, hy0.trans h10, hy1.trans h11, hy2.trans h12, hfa⟩
  simp only [transformerEncoderForward, h1, hy]

/-- Constraints making an FNetEncoderLayer act on width d. -/
def FNetLayerShape (fl : FNetLayer) (d : ℕ) : Prop :=
  FFShape fl.feed_forward d ∧ fl.sub0.norm.size = d ∧ fl.sub1.norm.size = d

/-- An FNetEncoderLayer succeeds on width-d input and preserves the shape. -/
theorem fnetLayer_some {fl : FNetLayer} {x : Tensor3} {d : ℕ}
    (training : Bool) (ks : LayerKeeps)
    (hs : FNetLayerShape fl d) (hx : x.n2 = d) :
    ∃ x2, fnetLayerForward fl training ks x = some x2 ∧
      x2.n0 = x.n0 ∧ x2.n1 = x.n1 ∧ x2.n2 = d := by
  obtain ⟨hff, hn0, hn1⟩ := hs
  have hstep1 := @sublayerConnection_some _ fl.sub0 x d training ks.sub0K
    (fun nx =>
      let r : TRef := { rid := 0, val := nx }
      Option.map (fun y => (y, ())) (fourierFFTForward r r r))
    (fun _ => True) hn0 hx ?hf
  case hf =>
    intro nx h0 h1 h2
    refine ⟨realPart3 (dftDim1 (dftDimLast (toC nx))), (), ?_, trivial, h0, h1, h2⟩
    show Option.map (fun y => (y, ()))
      (fourierFFTForward { rid := 0, val := nx } { rid := 0, val := nx }
        { rid := 0, val := nx }) = _
    rw [fourierFFTForward, if_pos ⟨rfl, rfl⟩]
    rfl
  obtain ⟨x1, u1, hx1, -, hx10, hx11, hx12⟩ := hstep1
  have hstep2 := @sublayerConnection_some _ fl.sub1 x1 d training ks.sub1K
    (fun nx => Option.map (fun y => (y, ()))
      (ffForward fl.feed_forward training ks.ffK nx))
    (fun _ => True) hn1 hx12 ?hf2
  case hf2 =>
    intro nx h0 h1 h2
    obtain ⟨y, hy, hy0, hy1, hy2⟩ := ffForward_some training ks.ffK hff h2
    exact ⟨y, (), by simp only [hy]; rfl, trivial, hy0.trans h0, hy1.trans h1, hy2⟩
  obtain ⟨x2, u2, hx2, -, hx20, hx21, hx22⟩ := hstep2
  refine ⟨x2, ?_, hx20.trans hx10, hx21.trans hx11, hx22⟩
  simp only [fnetLayerForward, hx1, hx2]

/-- The Fourier layer fold succeeds and preserves the shape. -/
theorem fnetLayers_some {d : ℕ} (training : Bool) (ksF : ℕ → LayerKeeps) :
    ∀ (ls : List FNetLayer) (i : ℕ) (x : Tensor3),
      (∀ fl ∈ ls, FNetLayerShape fl d) → x.n2 = d →
      ∃ y, fnetLayersForward training ksF ls i x = some y ∧
        y.n0 = x.n0 ∧ y.n1 = x.n1 ∧ y.n2 = d := by
  intro ls
  induction ls with
  | nil =>
    intro i x _ hx
    exact ⟨x, rfl, rfl, rfl, hx⟩
  | cons l rest ih =>
    intro i x hls hx
    obtain ⟨x1, hx1, h0, h1, h2⟩ := fnetLayer_some training (ksF i)
      (hls l (List.mem_cons_self l rest)) hx
    obtain ⟨y, hy, hy0, hy1, hy2⟩ := ih (i + 1) x1
      (fun fl hfl => hls fl (List.mem_cons_of_mem l hfl)) h2
    refine ⟨y, ?_, hy0.trans h0, hy1.trans h1, hy2⟩
    simp only [fnetLayersForward, hx1, hy]

/-- Constraints making an FNetEncoder act on width d. -/
def FNetEncShape (fp : FNetEncParams) (d : ℕ) : Prop :=
  fp.norm.size = d ∧ ∀ fl ∈ fp.layers, FNetLayerShape fl d

/-- The FNet stack succeeds and preserves the shape. -/
theorem fnetEncoder_some {fp : FNetEncParams} {x : Tensor3} {d : ℕ}
    (training : Bool) (ksF : ℕ → LayerKeeps)
    (hfp : FNetEncShape fp d) (hx : x.n2 = d) :
    ∃ y, fnetEncoderForward fp training ksF x = some y ∧
      y.n0 = x.n0 ∧ y.n1 = x.n1 ∧ y.n2 = d := by
  obtain ⟨y1, h1, h10, h11, h12⟩ := fnetLayers_some training ksF fp.layers 0 x hfp.2 hx
  obtain ⟨y, hy, hy0, hy1, hy2⟩ := @layerNorm_some fp.norm y1 (h12.trans hfp.1.symm)
  refine ⟨y, ?_, hy0.trans h10, hy1.trans h11, hy2.trans h12⟩
  simp only [fnetEncoderForward, h1, hy]

/-- The output head succeeds when the flattened width matches its linear
layer, producing shape [batch, outF]. -/
theorem headForward_some {hp : HeadParams} {x : Tensor3}
    (training : Bool) (keep : Keep2) (hw : x.n1 * x.n2 = hp.lin.inF) :
    ∃ y, headForward hp training keep x = some y ∧
      y.n0 = x.n0 ∧ y.n1 = hp.lin.outF := by
  have hfl : (fdropout2 hp.p training keep (flatten3 x)).n1 = hp.lin.inF := by
    rw [(fdropout2_shape _ _ _ _).2]
    exact hw
  obtain ⟨y, hy, hy0, hy1⟩ := linear2_some hfl
  refine ⟨y, ?_, ?_, hy1⟩
  · simp only [headForward, hy]
  · rw [hy0, (fdropout2_shape _ _ _ _).1]
    rfl

/-- The ConvLayer succeeds when the channel count matches and the padded
length reaches the kernel; the output length follows the conv formula. -/
theorem convLayerForward_some {cp : ConvParams} {x : Tensor3}
    (hch : x.n2 = cp.ch) (hkL : cp.k ≤ x.n1 + 2 * ((cp.k - 1) / 2)) :
    ∃ y, convLayerForward cp x = some y ∧ y.n0 = x.n0 ∧
      y.n1 = x.n1 + 2 * ((cp.k - 1) / 2) + 1 - cp.k ∧ y.n2 = cp.ch := by
  have hc : (pad1dLast ((cp.k - 1) / 2) (permute021 x)).n1 = cp.ch := by
    simp [pad1dLast, permute021, hch]
  have hk2 : cp.k ≤ (pad1dLast ((cp.k - 1) / 2) (permute021 x)).n2 := by
    simp only [pad1dLast, permute021]
    omega
  simp only [convLayerForward, conv1d]
  rw [if_pos ⟨hc, hk2⟩]
  exact ⟨_, rfl, rfl, rfl, rfl⟩

/-- Success and shape of a full TransformerModel forward pass: under the
wiring constraints the output is [batch, outF] and the new model state is
the old one with only the per-layer attention caches updated. -/
theorem transformerModel_some {m : TransformerModelS} {src : Tensor3}
    (mask : Option Tensor3) (training : Bool) (fk : ForwardKeeps) {d Lc : ℕ}
    (hch : m.conv.ch = d) (hsrc2 : src.n2 = d)
    (hkL : m.conv.k ≤ src.n1 + 2 * ((m.conv.k - 1) / 2))
    (hLc : Lc = src.n1 + 2 * ((m.conv.k - 1) / 2) + 1 - m.conv.k)
    (hpe_d : m.src_embed.d_model = d) (hpe_max : Lc ≤ m.src_embed.maxLen)
    (henc : EncShape m.encoder d)
    (hhead : m.linear.lin.inF = Lc * d)
    (hmask : MaskOk mask src.n0 Lc) :
    ∃ out ls2, transformerModelForward m src mask training fk =
        some (out, { m with encoder := { m.encoder with layers := ls2 } }) ∧
      out.n0 = src.n0 ∧ out.n1 = m.linear.lin.outF ∧
      List.Forall₂ AttnOnlyUpdate ls2 m.encoder.layers := by
  obtain ⟨c, hc, hc0, hc1, hc2⟩ :=
    @convLayerForward_some m.conv src (hsrc2.trans hch.symm) hkL
  have hc2d : c.n2 = d := hc2.trans hch
  have hc1L : c.n1 = Lc := by rw [hc1, hLc]
  obtain ⟨e, he, he0, he1, he2⟩ := peForward_some training fk.peK
    (by rw [hc1L]; exact hpe_max) (hc2d.trans hpe_d.symm)
  obtain ⟨enc, ls2, henc2, hen0, hen1, hen2, hfa⟩ :=
    transformerEncoder_some training fk.encK mask henc (he2.trans hc2d)
    (by rw [he0, he1, hc0, hc1L]; exact hmask)
  obtain ⟨out, hout, hout0, hout1⟩ := headForward_some training fk.headK
    (x := enc) (by rw [hen1, he1, hc1L, hen2, hhead])
  refine ⟨relu2 out, ls2, ?_, ?_, ?_, hfa⟩
  · simp only [transformerModelForward, hc, he, henc2, hout]
  · show out.n0 = src.n0
    rw [hout0, hen0, he0, hc0]
  · exact hout1

/-- Success and shape of a full FNetHybridModel forward pass. -/
theorem fnetHybridModel_some {m : FNetHybridModelS} {src : Tensor3}
    (mask : Option Tensor3) (training : Bool) (fk : ForwardKeeps) {d Lc : ℕ}
    (hch : m.conv.ch = d) (hsrc2 : src.n2 = d)
    (hkL : m.conv.k ≤ src.n1 + 2 * ((m.conv.k - 1) / 2))
    (hLc : Lc = src.n1 + 2 * ((m.conv.k - 1) / 2) + 1 - m.conv.k)
    (hpe_d : m.src_embed.d_model = d) (hpe_max : Lc ≤ m.src_embed.maxLen)
    (henc : EncShape m.trans d) (hfnet : FNetEncShape m.fnet d)
    (hhead : m.linear.lin.inF = Lc * d)
    (hmask : MaskOk mask src.n0 Lc) :
    ∃ out ls2, fnetHybridModelForward m src mask training fk =
        some (out, { m with trans := { m.trans with layers := ls2 } }) ∧
      out.n0 = src.n0 ∧ out.n1 = m.linear.lin.outF ∧
      List.Forall₂ AttnOnlyUpdate ls2 m.trans.layers := by
  obtain ⟨c, hc, hc0, hc1, hc2⟩ :=
    @convLayerForward_some m.conv src (hsrc2.trans hch.symm) hkL
  have hc2d : c.n2 = d := hc2.trans hch
  have hc1L : c.n1 = Lc := by rw [hc1, hLc]
  obtain ⟨e, he, he0, he1, he2⟩ := peForward_some training fk.peK
    (by rw [hc1L]; exact hpe_max) (hc2d.trans hpe_d.symm)
  obtain ⟨t1, ls2, ht1, ht0, ht11, ht2, hfa⟩ :=
    transformerEncoder_some training fk.encK mask henc (he2.trans hc2d)
    (by rw [he0, he1, hc0, hc1L]; exact hmask)
  obtain ⟨f1, hf1, hf0, hf11, hf2⟩ := fnetEncoder_some training fk.fnetK hfnet ht2
  obtain ⟨out, hout, hout0, hout1⟩ := headForward_some training fk.headK
    (x := f1) (by rw [hf11, ht11, he1, hc1L, hf2, hhead])
  refine ⟨relu2 out, ls2, ?_, ?_, ?_, hfa⟩
  · simp only [fnetHybridModelForward, hc, he, ht1, hf1, hout]
  · show out.n0 = src.n0
    rw [hout0, hf0, ht0, he0, hc0]
  · exact hout1

/-- Each factory-built encoder layer is well-wired for width d_model. -/
theorem mkTransLayer_shape (i d_model h d_ff : ℕ) (p : ℚ) (dev : Device)
    (init : InitW) (_hh : h ≠ 0) (hdvd : d_model % h = 0) (hd : 0 < d_model) :
    TransLayerShape (mkTransLayer i d_model h d_ff p dev init) d_model := by
  refine ⟨⟨?_, hd, ⟨rfl, rfl⟩, ⟨rfl, rfl⟩, ⟨rfl, rfl⟩, ⟨rfl, rfl⟩⟩,
    ⟨rfl, rfl, rfl⟩, rfl, rfl⟩
  exact Nat.mul_div_cancel' (Nat.dvd_of_mod_eq_zero hdvd)

/-- Each factory-built Fourier layer is well-wired for width d_model. -/
theorem mkFNetLayer_shape (i d_model d_ff : ℕ) (p : ℚ) (init : InitW) :
    FNetLayerShape (mkFNetLayer i d_model d_ff p init) d_model :=
  ⟨⟨rfl, rfl, rfl⟩, rfl, rfl⟩

/-- C6 (amended): for every model built by a factory whose kernel-parity
variant matches the parity of kernel_size, and every input window of shape
[batch, l_win, d_model] with an optional mask broadcastable against the
post-convolution attention scores, forward returns shape [batch, 1] —
provided the convolution output is non-empty, that is l_win at least 1 for
odd kernels and l_win at least 2 for even kernels (for even kernels the
convolution output has time length l_win - 1 and the head width is
d_model*(l_win-1); for odd kernels they are l_win and d_model*l_win). -/
theorem forward_shape_parity_matched :
    (∀ (N d_model l_win : ℕ) (dev : Device) (k d_ff h : ℕ) (p : ℚ) (init : InitW)
       (m : TransformerModelS) (src : Tensor3) (mask : Option Tensor3)
       (training : Bool) (fk : ForwardKeeps),
      create_transformer_kernel_odd N d_model l_win dev k d_ff h p init = some m →
      k % 2 = 1 → 1 ≤ l_win → src.n1 = l_win → src.n2 = d_model →
      MaskOk mask src.n0 l_win →
      ∃ out m2, transformerModelForward m src mask training fk = some (out, m2) ∧
        out.n0 = src.n0 ∧ out.n1 = 1) ∧
    (∀ (N d_model l_win : ℕ) (dev : Device) (k d_ff h : ℕ) (p : ℚ) (init : InitW)
       (m : TransformerModelS) (src : Tensor3) (mask : Option Tensor3)
       (training : Bool) (fk : ForwardKeeps),
      create_transformer_kernel_even N d_model l_win dev k d_ff h p init = some m →
      k % 2 = 0 → 2 ≤ l_win → src.n1 = l_win → src.n2 = d_model →
      MaskOk mask src.n0 (l_win - 1) →
      ∃ out m2, transformerModelForward m src mask training fk = some (out, m2) ∧
        out.n0 = src.n0 ∧ out.n1 = 1) ∧
    (∀ (N d_model l_win : ℕ) (dev : Device) (k d_ff h : ℕ) (p : ℚ) (init : InitW)
       (m : FNetHybridModelS) (src : Tensor3) (mask : Option Tensor3)
       (training : Bool) (fk : ForwardKeeps),
      create_fnet_hybrid_kernel_odd N d_model l_win dev k d_ff h p init = some m →
      k % 2 = 1 → 1 ≤ l_win → src.n1 = l_win → src.n2 = d_model →
      MaskOk mask src.n0 l_win →
      ∃ out m2, fnetHybridModelForward m src mask training fk = some (out, m2) ∧
        out.n0 = src.n0 ∧ out.n1 = 1) ∧
    (∀ (N d_model l_win : ℕ) (dev : Device) (k d_ff h : ℕ) (p : ℚ) (init : InitW)
       (m : FNetHybridModelS) (src : Tensor3) (mask : Option Tensor3)
       (training : Bool) (fk : ForwardKeeps),
      create_fnet_hybrid_kernel_even N d_model l_win dev k d_ff h p init = some m →
      k % 2 = 0 → 2 ≤ l_win → src.n1 = l_win → src.n2 = d_model →
      MaskOk mask src.n0 (l_win - 1) →
      ∃ out m2, fnetHybridModelForward m src mask training fk = some (out, m2) ∧
        out.n0 = src.n0 ∧ out.n1 = 1) := by
  refine ⟨?_, ?_, ?_, ?_⟩
  · intro N d_model l_win dev k d_ff h p init m src mask training fk
      hcr hodd hl hsrc1 hsrc2 hmask
    simp only [create_transformer_kernel_odd] at hcr
    split at hcr
    case _ hok =>
      injection hcr with hcr
      obtain ⟨-, -, hh, hdvd, hd, hk⟩ := hok
      obtain ⟨out, ls2, hfwd, ho0, ho1, -⟩ :=
        @transformerModel_some m src mask training fk d_model l_win
          (by rw [← hcr])
          hsrc2
          (by rw [← hcr]; show k ≤ src.n1 + 2 * ((k - 1) / 2); omega)
          (by rw [← hcr]; show l_win = src.n1 + 2 * ((k - 1) / 2) + 1 - k; omega)
          (by rw [← hcr])
          (by rw [← hcr])
          (by rw [← hcr]
              exact ⟨rfl, by
                intro tl htl
                obtain ⟨i, -, hi⟩ := List.mem_map.mp htl
                exact hi ▸ mkTransLayer_shape i d_model h _ p dev init hh hdvd (by omega)⟩)
          (by rw [← hcr]; show d_model * l_win = l_win * d_model; ring)
          hmask
      exact ⟨out, _, hfwd, ho0, ho1.trans (by rw [← hcr])⟩
    case _ => cases hcr
  · intro N d_model l_win dev k d_ff h p init m src mask training fk
      hcr heven hl hsrc1 hsrc2 hmask
    simp only [create_transformer_kernel_even] at hcr
    split at hcr
    case _ hok =>
      injection hcr with hcr
      obtain ⟨-, -, hh, hdvd, hd, hk⟩ := hok
      obtain ⟨out, ls2, hfwd, ho0, ho1, -⟩ :=
        @transformerModel_some m src mask training fk d_model (l_win - 1)
          (by rw [← hcr])
          hsrc2
          (by rw [← hcr]; show k ≤ src.n1 + 2 * ((k - 1) / 2); omega)
          (by rw [← hcr]; show l_win - 1 = src.n1 + 2 * ((k - 1) / 2) + 1 - k; omega)
          (by rw [← hcr])
          (by rw [← hcr]; show l_win - 1 ≤ l_win; omega)
          (by rw [← hcr]
              exact ⟨rfl, by
                intro tl htl
                obtain ⟨i, -, hi⟩ := List.mem_map.mp htl
                exact hi ▸ mkTransLayer_shape i d_model h _ p dev init hh hdvd (by omega)⟩)
          (by rw [← hcr]; show d_model * (l_win - 1) = (l_win - 1) * d_model; ring)
          hmask
      exact ⟨out, _, hfwd, ho0, ho1.trans (by rw [← hcr])⟩
    case _ => cases hcr
  · intro N d_model l_win dev k d_ff h p init m src mask training fk
      hcr hodd hl hsrc1 hsrc2 hmask
    simp only [create_fnet_hybrid_kernel_odd] at hcr
    split at hcr
    case _ hok =>
      injection hcr with hcr
      obtain ⟨-, -, hh, hdvd, hd, hk⟩ := hok
      obtain ⟨out, ls2, hfwd, ho0, ho1, -⟩ :=
        @fnetHybridModel_some m src mask training fk d_model l_win
          (by rw [← hcr])
          hsrc2
          (by rw [← hcr]; show k ≤ src.n1 + 2 * ((k - 1) / 2); omega)
          (by rw [← hcr]; show l_win = src.n1 + 2 * ((k - 1) / 2) + 1 - k; omega)
          (by rw [← hcr])
          (by rw [← hcr])
          (by rw [← hcr]
              exact ⟨rfl, by
                intro tl htl
                obtain ⟨i, -, hi⟩ := List.mem_map.mp htl
                exact hi ▸ mkTransLayer_shape i d_model h _ p dev init hh hdvd (by omega)⟩)
          (by rw [← hcr]
              exact ⟨rfl, by
                intro fl hfl
                obtain ⟨i, -, hi⟩ := List.mem_map.mp hfl
                exact hi ▸ mkFNetLayer_shape i d_model _ p init⟩)
          (by rw [← hcr]; show d_model * l_win = l_win * d_model; ring)
          hmask
      exact ⟨out, _, hfwd, ho0, ho1.trans (by rw [← hcr])⟩
    case _ => cases hcr
  · intro N d_model l_win dev k d_ff h p init m src mask training fk
      hcr heven hl hsrc1 hsrc2 hmask
    simp only [create_fnet_hybrid_kernel_even] at hcr
    split at hcr
    case _ hok =>
      injection hcr with hcr
      obtain ⟨-, -, hh, hdvd, hd, hk⟩ := hok
      obtain ⟨out, ls2, hfwd, ho0, ho1, -⟩ :=
        @fnetHybridModel_some m src mask training fk d_model (l_win - 1)
          (by rw [← hcr])
          hsrc2
          (by rw [← hcr]; show k ≤ src.n1 + 2 * ((k - 1) / 2); omega)
          (by rw [← hcr]; show l_win - 1 = src.n1 + 2 * ((k - 1) / 2) + 1 - k; omega)
          (by rw [← hcr])
          (by rw [← hcr]; show l_win - 1 ≤ l_win; omega)
          (by rw [← hcr]
              exact ⟨rfl, by
                intro tl htl
                obtain ⟨i, -, hi⟩ := List.mem_map.mp htl
                exact hi ▸ mkTransLayer_shape i d_model h _ p dev init hh hdvd (by omega)⟩)
          (by rw [← hcr]
              exact ⟨rfl, by
                intro fl hfl
                obtain ⟨i, -, hi⟩ := List.mem_map.mp hfl
                exact hi ▸ mkFNetLayer_shape i d_model _ p init⟩)
          (by rw [← hcr]; show d_model * (l_win - 1) = (l_win - 1) * d_model; ring)
          hmask
      exact ⟨out, _, hfwd, ho0, ho1.trans (by rw [← hcr])⟩
    case _ => cases hcr

/-- The 3-D dropout draw keeping every entry. -/
def keepAll3 : Keep3 := fun _ _ _ => true

/-- The 2-D dropout draw keeping every entry. -/
def keepAll2 : Keep2 := fun _ _ => true

/-- Keep-everything dropout draws for one encoder layer. -/
def lkAll : LayerKeeps :=
  { attnK := keepAll4, sub0K := keepAll3, sub1K := keepAll3, ffK := keepAll3 }

/-- Keep-everything dropout draws for one forward call. -/
def fkAll : ForwardKeeps :=
  { peK := keepAll3, headK := keepAll2, encK := fun _ => lkAll, fnetK := fun _ => lkAll }

/-- An all-zero window of the given shape. -/
def zeros3 (a b c : ℕ) : Tensor3 := { n0 := a, n1 := b, n2 := c, data := fun _ _ _ => 0 }

/-- C6 counterexample: a model built by the even-kernel transformer factory
with l_win = 1 and kernel_size = 2 (parity matched) does not return a
[batch, 1] tensor: the padded convolution input (length 1) is shorter than
the kernel, so the forward pass fails instead. -/
theorem forward_even_lwin1_fails :
    ∃ m : TransformerModelS,
      create_transformer_kernel_even 1 1 1 0 2 0 1 (1/10) initZero = some m ∧
      transformerModelForward m (zeros3 1 1 1) none false fkAll = none := by
  rw [create_transformer_kernel_even, if_pos (by norm_num [createOk])]
  refine ⟨_, rfl, ?_⟩
  simp [transformerModelForward, convLayerForward, conv1d, pad1dLast,
    permute021, zeros3]

/-- Witness for the amended C6 theorem: the odd transformer factory at
kernel_size 1, l_win 1, on a [3, 1, 1] window, yields output shape [3, 1]. -/
theorem forward_shape_parity_matched_witness :
    ∃ (m : TransformerModelS) (out : Tensor2) (m2 : TransformerModelS),
      create_transformer_kernel_odd 1 1 1 0 1 0 1 (1/10) initZero = some m ∧
      transformerModelForward m (zeros3 3 1 1) none false fkAll = some (out, m2) ∧
      out.n0 = 3 ∧ out.n1 = 1 := by
  cases hs : create_transformer_kernel_odd 1 1 1 0 1 0 1 (1/10) initZero with
  | none =>
    rw [create_transformer_kernel_odd, if_pos (by norm_num [createOk])] at hs
    cases hs
  | some m =>
    obtain ⟨out, m2, hfwd, h0, h1⟩ := forward_shape_parity_matched.1 1 1 1 0 1 0 1
      (1/10) initZero m (zeros3 3 1 1) none false fkAll hs (by decide) (by decide)
      rfl rfl (by intro mm hmm; cases hmm)
    exact ⟨m, out, m2, rfl, hfwd, h0, h1⟩

/-- Inversion: a successful MultiHeadAttention forward returns exactly the
input module with its attn cache overwritten by some weights (the mutation
of src/model.py line 141); every other field is untouched. -/
theorem multiHeadAttention_state_of {mp : MHAParams} {q k v : Tensor3}
    {mask : Option Tensor3} {keepA : Keep4} {out : Tensor3} {mp2 : MHAParams}
    (h : multiHeadAttentionForward mp q k v mask keepA = some (out, mp2)) :
    ∃ w, mp2 = { mp with attn := some w } := by
  unfold multiHeadAttentionForward at h
  split at h
  case _ =>
    split at h
    case _ =>
      dsimp only at h
      split at h
      case _ => cases h
      case _ =>
        rename_i x4 p_attn heqa
        split at h
        case _ => cases h
        case _ =>
          injection h with h
          rw [Prod.mk.injEq] at h
          exact ⟨p_attn, h.2.symm⟩
    case _ => cases h
  case _ => cases h

/-- Inversion: a successful SublayerConnection obtained its auxiliary state
from one call of the wrapped sublayer. -/
theorem sublayerConnection_state_of {α : Type} {sp : SubParams} {training : Bool}
    {keepD : Keep3} {x : Tensor3} {f : Tensor3 → Option (Tensor3 × α)}
    {r : Tensor3} {s : α}
    (h : sublayerConnection sp training keepD x f = some (r, s)) :
    ∃ nx y, f nx = some (y, s) := by
  unfold sublayerConnection at h
  split at h
  case _ => cases h
  case _ =>
    rename_i nx heqn
    split at h
    case _ => cases h
    case _ =>
      rename_i y s2 heqf
      split at h
      case _ => cases h
      case _ =>
        injection h with h
        rw [Prod.mk.injEq] at h
        exact ⟨nx, y, h.2 ▸ heqf⟩

/-- Inversion: a successful encoder-layer forward changes only the
attention cache of the layer. -/
theorem transLayer_state_of {tl : TransLayer} {training : Bool} {ks : LayerKeeps}
    {x : Tensor3} {mask : Option Tensor3} {x2 : Tensor3} {tl2 : TransLayer}
    (h : transLayerForward tl training ks x mask = some (x2, tl2)) :
    AttnOnlyUpdate tl2 tl := by
  unfold transLayerForward at h
  split at h
  case _ => cases h
  case _ =>
    rename_i x1 mha2 heq1
    split at h
    case _ => cases h
    case _ =>
      injection h with h
      rw [Prod.mk.injEq] at h
      obtain ⟨nx, y, hf⟩ := sublayerConnection_state_of heq1
      obtain ⟨w, hw⟩ := multiHeadAttention_state_of hf
      exact ⟨w, h.2.symm.trans (by rw [hw])⟩

/-- Inversion: the encoder fold changes only the attention caches. -/
theorem encLayers_state_of {training : Bool} {ksF : ℕ → LayerKeeps}
    {mask : Option Tensor3} :
    ∀ {ls : List TransLayer} {i : ℕ} {x y : Tensor3} {ls2 : List TransLayer},
      encLayersForward training ksF mask ls i x = some (y, ls2) →
      List.Forall₂ AttnOnlyUpdate ls2 ls := by
  intro ls
  induction ls with
  | nil =>
    intro i x y ls2 h
    unfold encLayersForward at h
    injection h with h
    rw [Prod.mk.injEq] at h
    rw [← h.2]
    exact List.Forall₂.nil
  | cons l rest ih =>
    intro i x y ls2 h
    unfold encLayersForward at h
    split at h
    case _ => cases h
    case _ =>
      rename_i x1 l2 heq1
      split at h
      case _ => cases h
      case _ =>
        rename_i y2 rest2 heq2
        injection h with h
        rw [Prod.mk.injEq] at h
        rw [← h.2]
        exact List.Forall₂.cons (transLayer_state_of heq1) (ih heq2)

/-- Inversion: a successful full-encoder forward keeps the trailing norm
and changes only the attention caches of its layers. -/
theorem transformerEncoder_state_of {ep : EncParams} {training : Bool}
    {ksF : ℕ → LayerKeeps} {x : Tensor3} {mask : Option Tensor3}
    {y : Tensor3} {ep2 : EncParams}
    (h : transformerEncoderForward ep training ksF x mask = some (y, ep2)) :
    ∃ ls2, ep2 = { ep with layers := ls2 } ∧
      List.Forall₂ AttnOnlyUpdate ls2 ep.layers := by
  unfold transformerEncoderForward at h
  split at h
  case _ => cases h
  case _ =>
    rename_i x1 ls2 heq1
    split at h
    case _ => cases h
    case _ =>
      injection h with h
      rw [Prod.mk.injEq] at h
      exact ⟨ls2, h.2.symm, encLayers_state_of heq1⟩

/-- Inversion: a successful TransformerModel forward returns the model with
only the per-layer attention caches replaced. -/
theorem transformerModel_state_of {m : TransformerModelS} {src : Tensor3}
    {mask : Option Tensor3} {training : Bool} {fk : ForwardKeeps}
    {out : Tensor2} {m2 : TransformerModelS}
    (h : transformerModelForward m src mask training fk = some (out, m2)) :
    ∃ ls2, m2 = { m with encoder := { m.encoder with layers := ls2 } } ∧
      List.Forall₂ AttnOnlyUpdate ls2 m.encoder.layers := by
  unfold transformerModelForward at h
  split at h
  case _ => cases h
  case _ =>
    split at h
    case _ => cases h
    case _ =>
      split at h
      case _ => cases h
      case _ =>
        rename_i enc ep2 heq
        split at h
        case _ => cases h
        case _ =>
          injection h with h
          rw [Prod.mk.injEq] at h
          obtain ⟨ls2, he, hfa⟩ := transformerEncoder_state_of heq
          exact ⟨ls2, h.2.symm.trans (by rw [he]), hfa⟩

/-- Inversion: a successful FNetHybridModel forward returns the model with
only the attention caches of its attention stack replaced. -/
theorem fnetHybridModel_state_of {m : FNetHybridModelS} {src : Tensor3}
    {mask : Option Tensor3} {training : Bool} {fk : ForwardKeeps}
    {out : Tensor2} {m2 : FNetHybridModelS}
    (h : fnetHybridModelForward m src mask training fk = some (out, m2)) :
    ∃ ls2, m2 = { m with trans := { m.trans with layers := ls2 } } ∧
      List.Forall₂ AttnOnlyUpdate ls2 m.trans.layers := by
  unfold fnetHybridModelForward at h
  split at h
  case _ => cases h
  case _ =>
    split at h
    case _ => cases h
    case _ =>
      split at h
      case _ => cases h
      case _ =>
        rename_i t1 ep2 heq
        split at h
        case _ => cases h
        case _ =>
          split at h
          case _ => cases h
          case _ =>
            injection h with h
            rw [Prod.mk.injEq] at h
            obtain ⟨ls2, he, hfa⟩ := transformerEncoder_state_of heq
            exact ⟨ls2, h.2.symm.trans (by rw [he]), hfa⟩

/-- C9 counterexample: a factory-built one-layer transformer (attention
cache initially None) is mutated by a successful forward pass: the
returned model state differs from the pre-call state, because the
attention submodule's attn field now caches the attention weights. -/
theorem forward_mutates_model_counterexample :
    ∃ (m : TransformerModelS) (out : Tensor2) (m2 : TransformerModelS),
      create_transformer_kernel_odd 1 1 1 0 1 0 1 0 initZero = some m ∧
      transformerModelForward m (zeros3 1 1 1) none false fkAll = some (out, m2) ∧
      m2 ≠ m := by
  cases hs : create_transformer_kernel_odd 1 1 1 0 1 0 1 0 initZero with
  | none =>
    rw [create_transformer_kernel_odd, if_pos (by norm_num [createOk])] at hs
    cases hs
  | some m =>
    simp only [create_transformer_kernel_odd] at hs
    split at hs
    case _ hok =>
      injection hs with hs
      obtain ⟨out, ls2, hfwd, -, -, hfa⟩ :=
        @transformerModel_some m (zeros3 1 1 1) none false fkAll 1 1
          (by rw [← hs]) rfl
          (by rw [← hs]; show 1 ≤ 1 + 2 * ((1 - 1) / 2); omega)
          (by rw [← hs]; show 1 = 1 + 2 * ((1 - 1) / 2) + 1 - 1; omega)
          (by rw [← hs])
          (by rw [← hs])
          (by rw [← hs]
              exact ⟨rfl, by
                intro tl htl
                obtain ⟨i, -, hi⟩ := List.mem_map.mp htl
                exact hi ▸ mkTransLayer_shape i 1 1 _ 0 0 initZero (by omega) rfl (by omega)⟩)
          (by rw [← hs])
          (by intro mm hmm; cases hmm)
      refine ⟨m, out, _, rfl, hfwd, ?_⟩
      intro hEq
      have hl : ls2 = m.encoder.layers :=
        congrArg (fun mm : TransformerModelS => mm.encoder.layers) hEq
      rw [hl, ← hs] at hfa
      simp only [List.range_succ, List.range_zero, List.nil_append, List.map_cons,
        List.map_nil] at hfa
      cases hfa with
      | cons hAB _ =>
        obtain ⟨w, hw⟩ := hAB
        exact Option.noConfusion
          (congrArg (fun l : TransLayer => l.self_attn.attn) hw)
    case _ => cases hs

/-- C9 (amended): a successful forward pass leaves the positional
embedding, output head, convolution front end and trailing norm untouched
and changes each encoder layer only by overwriting its attention
submodule's attn cache with the freshly computed attention weights (so all
learned parameters are unchanged, but the Model state is mutated); this
holds for both model variants, the hybrid one also keeping its Fourier
stack untouched. -/
theorem forward_mutates_only_attn_cache :
    (∀ (m : TransformerModelS) (src : Tensor3) (mask : Option Tensor3)
       (training : Bool) (fk : ForwardKeeps) (out : Tensor2) (m2 : TransformerModelS),
      transformerModelForward m src mask training fk = some (out, m2) →
      m2.src_embed = m.src_embed ∧ m2.linear = m.linear ∧ m2.conv = m.conv ∧
      m2.encoder.norm = m.encoder.norm ∧
      List.Forall₂ AttnOnlyUpdate m2.encoder.layers m.encoder.layers) ∧
    (∀ (m : FNetHybridModelS) (src : Tensor3) (mask : Option Tensor3)
       (training : Bool) (fk : ForwardKeeps) (out : Tensor2) (m2 : FNetHybridModelS),
      fnetHybridModelForward m src mask training fk = some (out, m2) →
      m2.src_embed = m.src_embed ∧ m2.linear = m.linear ∧ m2.conv = m.conv ∧
      m2.fnet = m.fnet ∧ m2.trans.norm = m.trans.norm ∧
      List.Forall₂ AttnOnlyUpdate m2.trans.layers m.trans.layers) := by
  constructor
  · intro m src mask training fk out m2 h
    obtain ⟨ls2, hm2, hfa⟩ := transformerModel_state_of h
    subst hm2
    exact ⟨rfl, rfl, rfl, rfl, hfa⟩
  · intro m src mask training fk out m2 h
    obtain ⟨ls2, hm2, hfa⟩ := fnetHybridModel_state_of h
    subst hm2
    exact ⟨rfl, rfl, rfl, rfl, rfl, hfa⟩

/-- Witness for the amended C9 theorem: applied to the concrete forward
pass of a factory-built one-layer transformer. -/
theorem forward_mutates_only_attn_cache_witness :
    ∃ (m : TransformerModelS) (out : Tensor2) (m2 : TransformerModelS),
      create_transformer_kernel_odd 1 1 1 0 1 0 1 0 initZero = some m ∧
      transformerModelForward m (zeros3 1 1 1) none false fkAll = some (out, m2) ∧
      m2.linear = m.linear ∧ m2.conv = m.conv ∧
      List.Forall₂ AttnOnlyUpdate m2.encoder.layers m.encoder.layers := by
  cases hs : create_transformer_kernel_odd 1 1 1 0 1 0 1 0 initZero with
  | none =>
    rw [create_transformer_kernel_odd, if_pos (by norm_num [createOk])] at hs
    cases hs
  | some m =>
    simp only [create_transformer_kernel_odd] at hs
    split at hs
    case _ hok =>
      injection hs with hs
      obtain ⟨out, ls2, hfwd, -, -, -⟩ :=
        @transformerModel_some m (zeros3 1 1 1) none false fkAll 1 1
          (by rw [← hs]) rfl
          (by rw [← hs]; show 1 ≤ 1 + 2 * ((1 - 1) / 2); omega)
          (by rw [← hs]; show 1 = 1 + 2 * ((1 - 1) / 2) + 1 - 1; omega)
          (by rw [← hs])
          (by rw [← hs])
          (by rw [← hs]
              exact ⟨rfl, by
                intro tl htl
                obtain ⟨i, -, hi⟩ := List.mem_map.mp htl
                exact hi ▸ mkTransLayer_shape i 1 1 _ 0 0 initZero (by omega) rfl (by omega)⟩)
          (by rw [← hs])
          (by intro mm hmm; cases hmm)
      obtain ⟨-, hlin, hconv, -, hfa⟩ :=
        forward_mutates_only_attn_cache.1 m (zeros3 1 1 1) none false fkAll out _ hfwd
      exact ⟨m, out, _, rfl, hfwd, hlin, hconv, hfa⟩
    case _ => cases hs

/-- Data of a successful linear3 application. -/
theorem linear3_data_of {lp : LinParams} {x y : Tensor3} (h : linear3 lp x = some y) :
    ∀ a b o, y.data a b o =
      Finset.sum (Finset.range lp.inF) (fun i => lp.w o i * x.data a b i) + lp.b o := by
  unfold linear3 at h
  split at h
  · injection h with h
    subst h
    intro a b o
    rfl
  · cases h

/-- A linear layer with all-zero weight and bias returns all-zero data. -/
theorem linear3_zero_data {lp : LinParams} {x y : Tensor3}
    (hw : ∀ o i, lp.w o i = 0) (hb : ∀ o, lp.b o = 0)
    (h : linear3 lp x = some y) : ∀ a b o, y.data a b o = 0 := by
  intro a b o
  rw [linear3_data_of h, hb]
  simp [hw]

/-- Data of a successful linear2 application. -/
theorem linear2_data_of {lp : LinParams} {x : Tensor2} {y : Tensor2}
    (h : linear2 lp x = some y) :
    ∀ a o, y.data a o =
      Finset.sum (Finset.range lp.inF) (fun i => lp.w o i * x.data a i) + lp.b o := by
  unfold linear2 at h
  split at h
  · injection h with h
    subst h
    intro a o
    rfl
  · cases h

/-- Data of a successful LayerNorm application. -/
theorem layerNorm_data_of {ln : LNParams} {x y : Tensor3} (h : layerNorm ln x = some y) :
    ∀ a b c, y.data a b c =
      (x.data a b c - (Finset.sum (Finset.range x.n2) (fun j => x.data a b j)) / (x.n2 : ℝ)) /
        Real.sqrt ((Finset.sum (Finset.range x.n2)
          (fun j => (x.data a b j -
            (Finset.sum (Finset.range x.n2) (fun i => x.data a b i)) / (x.n2 : ℝ)) ^ 2)) / (x.n2 : ℝ)
          + lnEps) * ln.g c + ln.bb c := by
  unfold layerNorm at h
  split at h
  · injection h with h
    subst h
    intro a b c
    rfl
  · cases h

/-- Data of a successful broadcasting addition. -/
theorem addB3_data_of {x y z : Tensor3} (h : addB3 x y = some z) :
    ∀ i j k2, z.data i j k2 =
      x.data (if x.n0 = 1 then 0 else i) (if x.n1 = 1 then 0 else j)
        (if x.n2 = 1 then 0 else k2) +
      y.data (if y.n0 = 1 then 0 else i) (if y.n1 = 1 then 0 else j)
        (if y.n2 = 1 then 0 else k2) := by
  unfold addB3 at h
  split at h
  · injection h with h
    subst h
    intro i j k2
    rfl
  · cases h

/-- Dropout is the identity whenever training is off or p = 0. -/
theorem fdropout3_id {p : ℚ} {training : Bool} (keep : Keep3) (x : Tensor3)
    (h : ¬ (training = true ∧ p ≠ 0)) : fdropout3 p training keep x = x := by
  unfold fdropout3
  rw [if_neg h]

/-- 2-D dropout is the identity whenever training is off or p = 0. -/
theorem fdropout2_id {p : ℚ} {training : Bool} (keep : Keep2) (x : Tensor2)
    (h : ¬ (training = true ∧ p ≠ 0)) : fdropout2 p training keep x = x := by
  unfold fdropout2
  rw [if_neg h]

/-- Data of a successful ConvLayer forward: ReLU of bias plus the windowed
sum over the padded, channels-first input. -/
theorem convLayerForward_data_of {cp : ConvParams} {x y : Tensor3}
    (h : convLayerForward cp x = some y) :
    ∀ a t ch, y.data a t ch = max 0 (cp.b ch +
      Finset.sum (Finset.range cp.ch) (fun c2 =>
        Finset.sum (Finset.range cp.k) (fun j =>
          cp.w ch c2 j * (pad1dLast ((cp.k - 1) / 2) (permute021 x)).data a c2 (t + j)))) := by
  unfold convLayerForward conv1d at h
  dsimp only at h
  split at h
  · cases h
  · rename_i s3 heq
    injection h with h
    subst h
    split at heq
    · injection heq with heq
      subst heq
      intro a t ch
      rfl
    · cases heq

/-- A ConvLayer with all-zero weight and bias returns all-zero data. -/
theorem convLayerForward_zero_data {cp : ConvParams} {x y : Tensor3}
    (hw : ∀ o c2 j, cp.w o c2 j = 0) (hb : ∀ o, cp.b o = 0)
    (h : convLayerForward cp x = some y) : ∀ a t ch, y.data a t ch = 0 := by
  intro a t ch
  rw [convLayerForward_data_of h, hb]
  simp [hw]

/-- Inversion of the positional-encoding forward into its addition and
dropout parts. -/
theorem peForward_of {pp : PEParams} {training : Bool} {keep : Keep3}
    {x y : Tensor3} (h : peForward pp training keep x = some y) :
    ∃ z, addB3 x (peSliceT pp (min x.n1 pp.maxLen)) = some z ∧
      y = fdropout3 pp.p training keep z := by
  unfold peForward at h
  cases haz : addB3 x (peSliceT pp (min x.n1 pp.maxLen)) with
  | none =>
    rw [haz] at h
    cases h
  | some z =>
    rw [haz] at h
    injection h with h
    exact ⟨z, rfl, h.symm⟩

/-- Inversion of a SublayerConnection into its three stages. -/
theorem sublayerConnection_of {α : Type} {sp : SubParams} {training : Bool}
    {keepD : Keep3} {x : Tensor3} {f : Tensor3 → Option (Tensor3 × α)}
    {r : Tensor3} {s : α}
    (h : sublayerConnection sp training keepD x f = some (r, s)) :
    ∃ nx y, layerNorm sp.norm x = some nx ∧ f nx = some (y, s) ∧
      addB3 x (fdropout3 sp.p training keepD y) = some r := by
  unfold sublayerConnection at h
  split at h
  case _ => cases h
  case _ =>
    rename_i nx heqn
    split at h
    case _ => cases h
    case _ =>
      rename_i y s2 heqf
      split at h
      case _ => cases h
      case _ =>
        rename_i r2 heqa
        injection h with h
        rw [Prod.mk.injEq] at h
        refine ⟨nx, y, heqn, h.2 ▸ heqf, h.1 ▸ heqa⟩

/-- Inversion of an encoder layer into its two sublayer applications. -/
theorem transLayerForward_of {tl : TransLayer} {training : Bool} {ks : LayerKeeps}
    {x : Tensor3} {mask : Option Tensor3} {x2 : Tensor3} {tl2 : TransLayer}
    (h : transLayerForward tl training ks x mask = some (x2, tl2)) :
    ∃ x1 mha2 u, sublayerConnection tl.sub0 training ks.sub0K x
        (fun nx => multiHeadAttentionForward tl.self_attn nx nx nx mask ks.attnK) =
        some (x1, mha2) ∧
      sublayerConnection tl.sub1 training ks.sub1K x1
        (fun nx => Option.map (fun y => (y, ()))
          (ffForward tl.feed_forward training ks.ffK nx)) = some (x2, u) := by
  unfold transLayerForward at h
  split at h
  case _ => cases h
  case _ =>
    rename_i x1 mha2 heq1
    split at h
    case _ => cases h
    case _ =>
      rename_i x2b u heq2
      injection h with h
      rw [Prod.mk.injEq] at h
      exact ⟨x1, mha2, u, heq1, h.1 ▸ heq2⟩

/-- The attention output of a successful MultiHeadAttention forward comes
out of the final linear projection. -/
theorem multiHeadAttention_out_of {mp : MHAParams} {q k v : Tensor3}
    {mask : Option Tensor3} {keepA : Keep4} {out : Tensor3} {mp2 : MHAParams}
    (h : multiHeadAttentionForward mp q k v mask keepA = some (out, mp2)) :
    ∃ t, linear3 mp.lin3 t = some out := by
  unfold multiHeadAttentionForward at h
  split at h
  case _ =>
    split at h
    case _ =>
      dsimp only at h
      split at h
      case _ => cases h
      case _ =>
        split at h
        case _ => cases h
        case _ =>
          rename_i out2 heq2
          injection h with h
          rw [Prod.mk.injEq] at h
          exact ⟨_, h.1 ▸ heq2⟩
    case _ => cases h
  case _ => cases h

/-- The output of a successful feed-forward block comes out of its second
linear layer. -/
theorem ffForward_of {ff : FFParams} {training : Bool} {keep : Keep3}
    {x y : Tensor3} (h : ffForward ff training keep x = some y) :
    ∃ t, linear3 ff.w_2 t = some y := by
  unfold ffForward at h
  split at h
  case _ => cases h
  case _ => exact ⟨_, h⟩

/-- Inversion of the full encoder into its fold and trailing norm. -/
theorem transformerEncoderForward_of {ep : EncParams} {training : Bool}
    {ksF : ℕ → LayerKeeps} {x : Tensor3} {mask : Option Tensor3}
    {y : Tensor3} {ep2 : EncParams}
    (h : transformerEncoderForward ep training ksF x mask = some (y, ep2)) :
    ∃ x1 ls2, encLayersForward training ksF mask ep.layers 0 x = some (x1, ls2) ∧
      layerNorm ep.norm x1 = some y := by
  unfold transformerEncoderForward at h
  split at h
  case _ => cases h
  case _ =>
    rename_i x1 ls2 heq1
    split at h
    case _ => cases h
    case _ =>
      rename_i y2 heq2
      injection h with h
      rw [Prod.mk.injEq] at h
      exact ⟨x1, ls2, heq1, h.1 ▸ heq2⟩

/-- Inversion of a singleton encoder fold into its one layer application. -/
theorem encLayers_singleton_of {training : Bool} {ksF : ℕ → LayerKeeps}
    {mask : Option Tensor3} {l : TransLayer} {x y : Tensor3} {ls2 : List TransLayer}
    (h : encLayersForward training ksF mask [l] 0 x = some (y, ls2)) :
    ∃ l2, transLayerForward l training (ksF 0) x mask = some (y, l2) := by
  unfold encLayersForward at h
  split at h
  case _ => cases h
  case _ =>
    rename_i x1 l2 heq1
    unfold encLayersForward at h
    injection h with h
    rw [Prod.mk.injEq] at h
    exact ⟨l2, h.1 ▸ heq1⟩

/-- Inversion of a TransformerModel forward into its four stages. -/
theorem transformerModelForward_of {m : TransformerModelS} {src : Tensor3}
    {mask : Option Tensor3} {training : Bool} {fk : ForwardKeeps}
    {out2 : Tensor2} {m2 : TransformerModelS}
    (h : transformerModelForward m src mask training fk = some (out2, m2)) :
    ∃ c e enc ep2 out, convLayerForward m.conv src = some c ∧
      peForward m.src_embed training fk.peK c = some e ∧
      transformerEncoderForward m.encoder training fk.encK e mask = some (enc, ep2) ∧
      headForward m.linear training fk.headK enc = some out ∧
      out2 = relu2 out := by
  unfold transformerModelForward at h
  split at h
  case _ => cases h
  case _ =>
    rename_i c heqc
    split at h
    case _ => cases h
    case _ =>
      rename_i e heqe
      split at h
      case _ => cases h
      case _ =>
        rename_i enc ep2 heqn
        split at h
        case _ => cases h
        case _ =>
          rename_i out heqo
          injection h with h
          rw [Prod.mk.injEq] at h
          exact ⟨c, e, enc, ep2, out, heqc, heqe, heqn, heqo, h.1.symm⟩

/-- Inversion of an FNetHybridModel forward into its five stages. -/
theorem fnetHybridModelForward_of {m : FNetHybridModelS} {src : Tensor3}
    {mask : Option Tensor3} {training : Bool} {fk : ForwardKeeps}
    {out2 : Tensor2} {m2 : FNetHybridModelS}
    (h : fnetHybridModelForward m src mask training fk = some (out2, m2)) :
    ∃ c e t1 ep2 f1 out, convLayerForward m.conv src = some c ∧
      peForward m.src_embed training fk.peK c = some e ∧
      transformerEncoderForward m.trans training fk.encK e mask = some (t1, ep2) ∧
      fnetEncoderForward m.fnet training fk.fnetK t1 = some f1 ∧
      headForward m.linear training fk.headK f1 = some out ∧
      out2 = relu2 out := by
  unfold fnetHybridModelForward at h
  split at h
  case _ => cases h
  case _ =>
    rename_i c heqc
    split at h
    case _ => cases h
    case _ =>
      rename_i e heqe
      split at h
      case _ => cases h
      case _ =>
        rename_i t1 ep2 heqn
        split at h
        case _ => cases h
        case _ =>
          rename_i f1 heqf
          split at h
          case _ => cases h
          case _ =>
            rename_i out heqo
            injection h with h
            rw [Prod.mk.injEq] at h
            exact ⟨c, e, t1, ep2, f1, out, heqc, heqe, heqn, heqf, heqo, h.1.symm⟩

/-- 3-D dropout with training off is the identity. -/
theorem fdropout3_false (p : ℚ) (keep : Keep3) (x : Tensor3) :
    fdropout3 p false keep x = x := fdropout3_id keep x (by simp)

/-- 2-D dropout with training off is the identity. -/
theorem fdropout2_false (p : ℚ) (keep : Keep2) (x : Tensor2) :
    fdropout2 p false keep x = x := fdropout2_id keep x (by simp)

/-- A successful LayerNorm forces the input width to equal its size. -/
theorem layerNorm_inF_of {ln : LNParams} {x y : Tensor3}
    (h : layerNorm ln x = some y) : x.n2 = ln.size := by
  unfold layerNorm at h
  split at h
  · assumption
  · cases h

/-- Inversion of the unit-pairing Option.map used by the feed-forward and
Fourier sublayers. -/
theorem mapUnit_of {o : Option Tensor3} {y : Tensor3} {u : Unit}
    (h : Option.map (fun t => (t, ())) o = some (y, u)) : o = some y := by
  cases o with
  | none => cases h
  | some t =>
    injection h with h
    rw [Prod.mk.injEq] at h
    rw [h.1]

/-- An FNetEncoder with an empty layer list is exactly its trailing
LayerNorm. -/
theorem fnetEncoder_nil {fp : FNetEncParams} (training : Bool)
    (ksF : ℕ → LayerKeeps) (x : Tensor3) (hl : fp.layers = []) :
    fnetEncoderForward fp training ksF x = layerNorm fp.norm x := by
  unfold fnetEncoderForward
  rw [hl]
  rfl

/-- The positional table entry at position 0, column 0 is sin 0 = 0. -/
theorem peEntry_two_zero_zero : peEntry 2 0 0 = 0 := by
  unfold peEntry
  rw [if_pos (by norm_num)]
  simp

/-- The positional table entry at position 0, column 1 is cos 0 = 1. -/
theorem peEntry_two_zero_one : peEntry 2 0 1 = 1 := by
  unfold peEntry
  rw [if_neg (by norm_num), if_pos (by norm_num [peDivTermLen, peCosCols])]
  simp

/-- The parameter draw that is zero everywhere except that the output head
weight picks out flattened coordinate 1. -/
def initHead : InitW := { initZero with headW := fun _ i => if i = 1 then 1 else 0 }

/-- The concrete conv front end of the comparison models: d_model 2,
kernel 1. -/
def convC10 : ConvParams := { ch := 2, k := 1, w := initHead.convW, b := initHead.convB }

/-- The concrete positional encoding of the comparison models. -/
def peC10 : PEParams := { d_model := 2, maxLen := 1, p := 0 }

/-- The concrete output head of the comparison models. -/
def headC10 : HeadParams :=
  { p := 0, lin := { outF := 1, inF := 2, w := initHead.headW, b := initHead.headB } }

/-- The concrete one-layer attention encoder of the comparison models. -/
def encC10 : EncParams :=
  { layers := [mkTransLayer 0 2 1 8 0 0 initHead], norm := lnDefault 2 }

/-- The empty Fourier stack of the N = 1 hybrid model. -/
def fnetC10 : FNetEncParams := { layers := [], norm := lnDefault 2 }

/-- The N = 1 transformer model the odd-kernel factory builds from
initHead at d_model 2, l_win 1, kernel 1, h 1, dropout 0. -/
def mtC10 : TransformerModelS :=
  { encoder := encC10, src_embed := peC10, linear := headC10, conv := convC10 }

/-- The N = 1 hybrid model built from the identical parameters. -/
def mhC10 : FNetHybridModelS :=
  { trans := encC10, src_embed := peC10, linear := headC10, fnet := fnetC10,
    conv := convC10 }

/-- The first-LayerNorm output entry of the comparison computation:
one half over the square root of one quarter plus epsilon. -/
def aT : ℝ := (1 / 2) / Real.sqrt (1 / 4 + lnEps)

/-- A window row holding 0 and 2, on which LayerNorm is visibly not the
identity. -/
def rowX : Tensor3 :=
  { n0 := 1, n1 := 1, n2 := 2, data := fun _ _ c => if c = 0 then 0 else 2 }

/-- On an all-zero convolution output, the positional-encoding forward of
the comparison models writes exactly the table row 0. -/
theorem peC10_data {c e : Tensor3} (hcd : ∀ a t ch, c.data a t ch = 0)
    (h : peForward peC10 false fkAll.peK c = some e) :
    ∀ cc, e.data 0 0 cc = peEntry 2 0 cc := by
  obtain ⟨z, haz, hez⟩ := peForward_of h
  rw [fdropout3_false] at hez
  subst hez
  intro cc
  rw [addB3_data_of haz, hcd]
  simp [peSliceT, peC10]

/-- Through the zero-initialized attention layer, the encoder of the
comparison models turns table row [0, 1] into the normalized row
[-aT, aT]. -/
theorem encC10_data {e z1 : Tensor3} {ep2 : EncParams}
    (hed : ∀ cc, e.data 0 0 cc = peEntry 2 0 cc)
    (henc : transformerEncoderForward encC10 false fkAll.encK e none = some (z1, ep2)) :
    z1.n2 = 2 ∧ z1.data 0 0 0 = -aT ∧ z1.data 0 0 1 = aT := by
  obtain ⟨x2, ls2, hfold, hnorm⟩ := transformerEncoderForward_of henc
  simp only [encC10] at hfold
  obtain ⟨l2, hlayer⟩ := encLayers_singleton_of hfold
  obtain ⟨x1b, mha2, u, hsubA, hsubF⟩ := transLayerForward_of hlayer
  obtain ⟨nxA, yA, hnormA, hfA, haddA⟩ := sublayerConnection_of hsubA
  obtain ⟨nxF, yF, hnormF, hfF, haddF⟩ := sublayerConnection_of hsubF
  obtain ⟨tA, htA⟩ := multiHeadAttention_out_of hfA
  have hyA0 : ∀ a b o, yA.data a b o = 0 :=
    linear3_zero_data (fun o i => rfl) (fun o => rfl) htA
  have hffF := mapUnit_of hfF
  obtain ⟨tF, htF⟩ := ffForward_of hffF
  have hyF0 : ∀ a b o, yF.data a b o = 0 :=
    linear3_zero_data (fun o i => rfl) (fun o => rfl) htF
  have he2 : e.n2 = 2 := layerNorm_inF_of hnormA
  have hx1n2 : x1b.n2 = 2 := layerNorm_inF_of hnormF
  rw [fdropout3_false] at haddA haddF
  have hx1d : ∀ cc, x1b.data 0 0 cc = peEntry 2 0 cc := by
    intro cc
    rw [addB3_data_of haddA, hyA0]
    simp only [ite_self, add_zero]
    rw [if_neg (by rw [he2]; norm_num)]
    exact hed cc
  have hx2d : ∀ cc, x2.data 0 0 cc = peEntry 2 0 cc := by
    intro cc
    rw [addB3_data_of haddF, hyF0]
    simp only [ite_self, add_zero]
    rw [if_neg (by rw [hx1n2]; norm_num)]
    exact hx1d cc
  have hx2n2 : x2.n2 = 2 := layerNorm_inF_of hnorm
  have hz1n2 : z1.n2 = 2 := (layerNorm_shape_of hnorm).2.2.trans hx2n2
  have hS : Finset.sum (Finset.range 2) (fun j => x2.data 0 0 j) = 1 := by
    rw [Finset.sum_range_succ, Finset.sum_range_one, hx2d 0, hx2d 1,
      peEntry_two_zero_zero, peEntry_two_zero_one]
    norm_num
  have hdz := layerNorm_data_of hnorm
  refine ⟨hz1n2, ?_, ?_⟩
  · have h0 := hdz 0 0 0
    rw [hx2n2] at h0
    rw [hS] at h0
    rw [Finset.sum_range_succ, Finset.sum_range_one, hx2d 0, hx2d 1,
      peEntry_two_zero_zero, peEntry_two_zero_one] at h0
    simp only [encC10, lnDefault] at h0
    rw [h0]
    unfold aT
    norm_num
    exact neg_div _ _
  · have h1 := hdz 0 0 1
    rw [hx2n2] at h1
    rw [hS] at h1
    rw [Finset.sum_range_succ, Finset.sum_range_one, hx2d 0, hx2d 1,
      peEntry_two_zero_zero, peEntry_two_zero_one] at h1
    simp only [encC10, lnDefault] at h1
    rw [h1]
    unfold aT
    norm_num

/-- The output head of the comparison models reads off entry (0, 0, 1). -/
theorem headC10_data {x : Tensor3} {out : Tensor2} (hx2 : x.n2 = 2)
    (h : headForward headC10 false fkAll.headK x = some out) :
    out.data 0 0 = x.data 0 0 1 := by
  unfold headForward at h
  rw [fdropout2_false] at h
  rw [linear2_data_of h]
  simp only [headC10, initHead, initZero]
  rw [Finset.sum_range_succ, Finset.sum_range_one]
  simp [flatten3, hx2]

/-- C10: an FNetEncoder built with zero layers still applies its trailing
LayerNorm - it computes LayerNorm(x), not the identity (shown on a row
where LayerNorm visibly moves an entry) - so the N = 1 hybrid model runs
one extra LayerNorm between the attention stack and the output head, and
with identical parameters the N = 1 hybrid and N = 1 transformer models
built by the odd-kernel factories disagree on a concrete all-zero window:
the transformer head sees the once-normalized value and the hybrid head
the twice-normalized one, and the two outputs differ. -/
theorem hybrid_empty_fnet_extra_layernorm :
    (∀ (fp : FNetEncParams) (training : Bool) (ksF : ℕ → LayerKeeps) (x : Tensor3),
      fp.layers = [] → fnetEncoderForward fp training ksF x = layerNorm fp.norm x) ∧
    (∃ y : Tensor3, layerNorm (lnDefault 2) rowX = some y ∧
      y.data 0 0 0 ≠ rowX.data 0 0 0) ∧
    (create_fnet_hybrid_kernel_odd 1 2 1 0 1 0 1 0 initHead = some mhC10 ∧
     create_transformer_kernel_odd 1 2 1 0 1 0 1 0 initHead = some mtC10 ∧
     ∃ outH mH2 outT mT2,
       fnetHybridModelForward mhC10 (zeros3 1 1 2) none false fkAll = some (outH, mH2) ∧
       transformerModelForward mtC10 (zeros3 1 1 2) none false fkAll = some (outT, mT2) ∧
       outH.data 0 0 ≠ outT.data 0 0) := by
  refine ⟨fun fp training ksF x hl => fnetEncoder_nil training ksF x hl, ?_, ?_⟩
  · obtain ⟨y, hy, -, -, -⟩ := @layerNorm_some (lnDefault 2) rowX rfl
    refine ⟨y, hy, ?_⟩
    have hd := layerNorm_data_of hy 0 0 0
    have hval : y.data 0 0 0 = (0 - 1) / Real.sqrt (1 + lnEps) := by
      rw [hd]
      norm_num [rowX, lnDefault, Finset.sum_range_succ, Finset.sum_range_one]
    rw [hval]
    have hne : (0 - 1 : ℝ) / Real.sqrt (1 + lnEps) ≠ 0 :=
      div_ne_zero (by norm_num)
        (Real.sqrt_ne_zero'.mpr (by norm_num [lnEps]))
    simpa [rowX] using hne
  · have hcrH : create_fnet_hybrid_kernel_odd 1 2 1 0 1 0 1 0 initHead = some mhC10 := by
      rw [create_fnet_hybrid_kernel_odd, if_pos (by norm_num [createOk])]
      rfl
    have hcrT : create_transformer_kernel_odd 1 2 1 0 1 0 1 0 initHead = some mtC10 := by
      rw [create_transformer_kernel_odd, if_pos (by norm_num [createOk])]
      rfl
    obtain ⟨outT, ls2T, hfwdT, -, -, -⟩ :=
      @transformerModel_some mtC10 (zeros3 1 1 2) none false fkAll 2 1
        rfl rfl
        (by show (1:ℕ) ≤ 1 + 2 * ((1 - 1) / 2); norm_num)
        (by show (1:ℕ) = 1 + 2 * ((1 - 1) / 2) + 1 - 1; norm_num)
        rfl (le_refl 1)
        ⟨rfl, by
          intro tl htl
          simp only [mtC10, encC10, List.mem_singleton] at htl
          subst htl
          exact mkTransLayer_shape 0 2 1 8 0 0 initHead (by norm_num) (by norm_num)
            (by norm_num)⟩
        (by show (2:ℕ) = 1 * 2; norm_num)
        (by intro mm hmm; cases hmm)
    obtain ⟨outH, ls2H, hfwdH, -, -, -⟩ :=
      @fnetHybridModel_some mhC10 (zeros3 1 1 2) none false fkAll 2 1
        rfl rfl
        (by show (1:ℕ) ≤ 1 + 2 * ((1 - 1) / 2); norm_num)
        (by show (1:ℕ) = 1 + 2 * ((1 - 1) / 2) + 1 - 1; norm_num)
        rfl (le_refl 1)
        ⟨rfl, by
          intro tl htl
          simp only [mhC10, encC10, List.mem_singleton] at htl
          subst htl
          exact mkTransLayer_shape 0 2 1 8 0 0 initHead (by norm_num) (by norm_num)
            (by norm_num)⟩
        ⟨rfl, by
          intro fl hfl
          simp only [mhC10, fnetC10, List.not_mem_nil] at hfl⟩
        (by show (2:ℕ) = 1 * 2; norm_num)
        (by intro mm hmm; cases hmm)
    obtain ⟨cT, eT, encT, epT, ohT, hcT, heT, hencT, hheadT, houtT⟩ :=
      transformerModelForward_of hfwdT
    simp only [mtC10] at hcT heT hencT hheadT
    have hcdT : ∀ a t ch, cT.data a t ch = 0 :=
      convLayerForward_zero_data (fun o c2 j => rfl) (fun o => rfl) hcT
    have hedT := peC10_data hcdT heT
    obtain ⟨hz1n2T, hz10T, hz11T⟩ := encC10_data hedT hencT
    have hhdT := headC10_data hz1n2T hheadT
    have hvT : outT.data 0 0 = max 0 aT := by
      rw [houtT]
      show max 0 (ohT.data 0 0) = max 0 aT
      rw [hhdT, hz11T]
    obtain ⟨cH, eH, t1H, epH, f1H, ohH, hcH, heH, hencH, hfeH, hheadH, houtH⟩ :=
      fnetHybridModelForward_of hfwdH
    simp only [mhC10] at hcH heH hencH hfeH hheadH
    have hcdH : ∀ a t ch, cH.data a t ch = 0 :=
      convLayerForward_zero_data (fun o c2 j => rfl) (fun o => rfl) hcH
    have hedH := peC10_data hcdH heH
    obtain ⟨hz1n2H, hz10H, hz11H⟩ := encC10_data hedH hencH
    rw [fnetEncoder_nil false fkAll.fnetK t1H rfl] at hfeH
    have ht1n2 : t1H.n2 = 2 := layerNorm_inF_of hfeH
    have hf1n2 : f1H.n2 = 2 := (layerNorm_shape_of hfeH).2.2.trans ht1n2
    have hSH : Finset.sum (Finset.range 2) (fun j => t1H.data 0 0 j) = 0 := by
      rw [Finset.sum_range_succ, Finset.sum_range_one, hz10H, hz11H]
      ring
    have h1H := layerNorm_data_of hfeH 0 0 1
    rw [ht1n2] at h1H
    rw [hSH] at h1H
    rw [Finset.sum_range_succ, Finset.sum_range_one, hz10H, hz11H] at h1H
    simp only [fnetC10, lnDefault] at h1H
    have hhdH := headC10_data hf1n2 hheadH
    have hvH : outH.data 0 0 = max 0 (aT / Real.sqrt (aT ^ 2 + lnEps)) := by
      rw [houtH]
      show max 0 (ohH.data 0 0) = _
      rw [hhdH, h1H]
      norm_num
    have hs : (0:ℝ) < 1/4 + lnEps := by norm_num [lnEps]
    have hsq : 0 < Real.sqrt (1/4 + lnEps) := Real.sqrt_pos.mpr hs
    have haT : 0 < aT := by
      unfold aT
      positivity
    have haT2 : aT ^ 2 = (1/4) / (1/4 + lnEps) := by
      unfold aT
      rw [div_pow, Real.sq_sqrt hs.le]
      norm_num
    have hargpos : 0 < aT ^ 2 + lnEps := by
      have : (0:ℝ) < lnEps := by norm_num [lnEps]
      positivity
    have harglt : aT ^ 2 + lnEps < 1 := by
      rw [haT2]
      norm_num [lnEps]
    have ht1 : Real.sqrt (aT ^ 2 + lnEps) < 1 := by
      rw [show (1:ℝ) = Real.sqrt 1 from Real.sqrt_one.symm]
      exact Real.sqrt_lt_sqrt hargpos.le harglt
    have htpos : 0 < Real.sqrt (aT ^ 2 + lnEps) := Real.sqrt_pos.mpr hargpos
    have hlt : aT < aT / Real.sqrt (aT ^ 2 + lnEps) := by
      rw [lt_div_iff₀ htpos]
      calc aT * Real.sqrt (aT ^ 2 + lnEps) < aT * 1 :=
            mul_lt_mul_of_pos_left ht1 haT
        _ = aT := mul_one aT
    refine ⟨hcrH, hcrT, outH, _, outT, _, hfwdH, hfwdT, ?_⟩
    rw [hvH, hvT]
    rw [max_eq_right haT.le, max_eq_right (le_of_lt (lt_trans haT hlt))]
    exact ne_of_gt hlt

/-- Witness for C10: instantiating the empty-stack conjunct at the concrete
zero-layer FNet encoder of the N = 1 hybrid model and a concrete input row,
with the empty-layer-list hypothesis discharged definitionally. -/
theorem hybrid_empty_fnet_extra_layernorm_witness :
    fnetEncoderForward fnetC10 false fkAll.fnetK rowX = layerNorm fnetC10.norm rowX :=
  hybrid_empty_fnet_extra_layernorm.1 fnetC10 false fkAll.fnetK rowX rfl
